import Mathlib

/-! Connect Four (`src/connect4.js`).

A shallow embedding of the game engine of `connect4.js`: the board, the search
for the landing row of a column, the win scan, the tie test and the click
handler, followed by theorems about them.

JavaScript values are modelled only as far as this program observes them:

* a `Player` object is compared with `===` (object identity); the field `ref`
  stands for the identity of the allocation, so equality of `Player` values is
  identity of objects;
* a board row is a JavaScript array: it has a `length`, and a value under every
  integer key (a key may be absent, which reads as `undefined`);
* a statement that throws (reading a property of `undefined` or `null`) ends the
  handler with the error, keeping the mutations made so far;
* the column of a click is `+evt.target.id`; the integer values are modelled
  (`Int`), a non-numeric id (`NaN`) is not.
-/

namespace Connect4

/-! ## Data model -/

/-- `class Player` (lines 8-20): `name` and `color`; `ref` is the object identity. -/
structure Player where
  ref : Nat
  name : String
  color : String
deriving DecidableEq, Repr

/-- What is stored under one key of a row array: nothing (`hole`, the key is
absent and reads as `undefined`), the value `undefined` (as produced by
`Array.from`), or a reference to a `Player`. -/
inductive Slot where
  | hole
  | undef
  | piece (p : Player)
deriving DecidableEq, Repr

/-- JavaScript truthiness of the value read from a slot: objects are truthy,
`undefined` is falsy. -/
def Slot.truthy : Slot → Bool
  | .piece _ => true
  | _ => false

/-- One row of the board: a JavaScript array of cells. `get i` is what is stored
under the integer key `i` (array elements for `0 ≤ i < length`, plain properties
for the other keys). -/
structure Row where
  length : Nat
  get : Int → Slot

/-- The largest array index of JavaScript, `2^32 - 2`. -/
def maxArrayIndex : Int := 4294967294

/-- The assignment `row[i] = v`. An array index (`0 ≤ i ≤ 2^32 - 2`) at or
beyond `length` extends the array (`length` becomes `i + 1`, the keys in between
stay absent); any other key, negative or above `2^32 - 2`, is an ordinary
property and leaves `length` alone. -/
def Row.set (r : Row) (i : Int) (v : Slot) : Row :=
  { length := if (r.length : Int) ≤ i ∧ i ≤ maxArrayIndex then (i + 1).toNat else r.length
    get := fun j => if j = i then v else r.get j }

/-- The call `row.every(f)`: visits the keys `0 .. length-1` in order, skips
absent keys, and stops at the first falsy answer. -/
def Row.every (r : Row) (f : Slot → Bool) : Bool :=
  (List.range r.length).all (fun k =>
    match r.get (k : Int) with
    | .hole => true
    | v => f v)

/-- The call `Array.from({ length: n })` (line 49): `n` elements, all
`undefined`. -/
def Row.fromLength (n : Nat) : Row :=
  { length := n
    get := fun j => if 0 ≤ j ∧ j < (n : Int) then .undef else .hole }

/-- The error a JavaScript statement can raise in this program. -/
inductive JSError where
  | typeError
deriving DecidableEq, Repr

/-- The global state once `startGame` has run: the bindings `player1` and
`player2` (lines 189-190), the counter `gameData.gameNum` (line 23), and the
number of `Player` objects allocated so far (the next fresh identity). -/
structure Globals where
  player1 : Player
  player2 : Player
  gameNum : Nat
  nextRef : Nat
deriving DecidableEq, Repr

/-- The fields of a `Game` object (lines 28-41). `listening` records whether
`clickEventHandle` is registered on the top row `top` (added at line 68, removed
at line 119). The outer array `board` is only ever grown by `makeBoard`, so it is
a plain list of rows. -/
structure Game where
  WIDTH : Nat
  HEIGHT : Nat
  currPlayer : Player
  board : List Row
  listening : Bool
  gameNum : Nat

/-- How one run of the click handler ends. -/
inductive Outcome where
  /-- No listener is registered on the top row: the handler does not run. -/
  | unheard
  /-- The `return;` of line 131: the column has no spot. -/
  | ignored
  /-- An exception left the handler. -/
  | threw (e : JSError)
  /-- The call `endGame` of line 140, with its message. -/
  | win (msg : String)
  /-- The call `endGame` of line 145, with its message. -/
  | tie (msg : String)
  /-- Line 149 was reached: the players were switched. -/
  | next
deriving DecidableEq, Repr

/-! ## Operations -/

/-- The loop `cells.every(...)` / a chain of `&&`: stops at the first `false`
or at the first exception. -/
def everyE {α : Type} (f : α → Except JSError Bool) : List α → Except JSError Bool
  | [] => .ok true
  | a :: as =>
    match f a with
    | .error e => .error e
    | .ok false => .ok false
    | .ok true => everyE f as

/-- A loop that returns `true` at the first hit / a chain of `||`: stops at the
first `true` or at the first exception. -/
def anyE {α : Type} (f : α → Except JSError Bool) : List α → Except JSError Bool
  | [] => .ok false
  | a :: as =>
    match f a with
    | .error e => .error e
    | .ok true => .ok true
    | .ok false => anyE f as

/-- The loop of `findSpotForCol` (lines 95-99) with `n = y + 1`: the rows
`n-1, n-2, .., 0` are still to be visited. Reading `this.board[y][x]` throws when
`this.board[y]` is `undefined`. -/
def findSpotForColLoop (g : Game) (x : Int) : Nat → Except JSError (Option Nat)
  | 0 => .ok none
  | y + 1 =>
    match g.board[y]? with
    | none => .error .typeError
    | some row =>
      if !(row.get x).truthy then .ok (some y)
      else findSpotForColLoop g x y

/-- `findSpotForCol(x)` (lines 94-101): `some y` for `return y`, `none` for
`return null`. The docstring of line 92 says "top empty y"; the loop runs from
the bottom row upwards and returns the first empty row it meets, the empty row
with the largest index. -/
def findSpotForCol (g : Game) (x : Int) : Except JSError (Option Nat) :=
  findSpotForColLoop g x g.HEIGHT

/-- The assignment `this.board[y][x] = v` (line 135). -/
def setCell (b : List Row) (y : Nat) (x : Int) (v : Slot) : List Row :=
  match b[y]? with
  | none => b
  | some row => b.set y (row.set x v)

/-- `placeInTable(y, x)` (lines 105-114), as far as the engine is concerned:
`makeHtmlBoard` (lines 79-89) creates a table cell with the id
`game<gameNum>:<y>-<x>` exactly for `0 ≤ y < HEIGHT`, `0 ≤ x < WIDTH`; for any
other `(y, x)` `getElementById` gives `null` and `spot.append` throws. -/
def placeInTable (g : Game) (y : Nat) (x : Int) : Except JSError Unit :=
  if y < g.HEIGHT ∧ 0 ≤ x ∧ x < (g.WIDTH : Int) then .ok () else .error .typeError

/-- The callback of `_win` (lines 161-166) on one coordinate pair `[y, x]`: the
four bounds tests, then `this.board[y][x] === this.currPlayer`. -/
def winCell (g : Game) (c : Int × Int) : Except JSError Bool :=
  if 0 ≤ c.1 ∧ c.1 < (g.HEIGHT : Int) ∧ 0 ≤ c.2 ∧ c.2 < (g.WIDTH : Int) then
    match g.board[c.1.toNat]? with
    | none => .error .typeError
    | some row => .ok (decide (row.get c.2 = .piece g.currPlayer))
  else .ok false

/-- `_win(cells)` (lines 156-168). -/
def _win (g : Game) (cells : List (Int × Int)) : Except JSError Bool :=
  everyE (winCell g) cells

/-- The four check lists built at lines 174-177 for the start cell `(y, x)`, in
the order they are tried at line 180: `horiz`, `vert`, `diagDR`, `diagDL`. -/
def checkLists (y x : Int) : List (List (Int × Int)) :=
  [ [(y, x), (y, x + 1), (y, x + 2), (y, x + 3)],
    [(y, x), (y + 1, x), (y + 2, x), (y + 3, x)],
    [(y, x), (y + 1, x + 1), (y + 2, x + 2), (y + 3, x + 3)],
    [(y, x), (y + 1, x - 1), (y + 2, x - 2), (y + 3, x - 3)] ]

/-- `checkForWin()` (lines 154-185). The function returns `true` at line 181 or
falls off its end (`undefined`); it is only used as a condition (line 139), so
`undefined` is rendered as `false`. -/
def checkForWin (g : Game) : Except JSError Bool :=
  anyE (fun y : Nat =>
    anyE (fun x : Nat => anyE (_win g) (checkLists (y : Int) (x : Int)))
      (List.range g.WIDTH))
    (List.range g.HEIGHT)

/-- The tie test of line 144:
`this.board.every(row => row.every(cell => cell))`. -/
def boardFull (g : Game) : Bool :=
  g.board.all (fun row => row.every Slot.truthy)

/-- `endGame(msg)` (lines 118-121): the click listener is removed; the message
is shown by `alert`. -/
def endGame (g : Game) : Game :=
  { g with listening := false }

/-- The message of line 140. -/
def winMessage (g : Game) : String :=
  g.currPlayer.name ++ " won game " ++ toString g.gameNum ++ "!"

/-- Line 135: `this.board[y][x] = this.currPlayer`. -/
def Game.place (g : Game) (y : Nat) (x : Int) : Game :=
  { g with board := setCell g.board y x (.piece g.currPlayer) }

/-- Line 149:
`this.currPlayer = this.currPlayer.name === "Player1" ? player2 : player1`. -/
def switchPlayers (env : Globals) (g : Game) : Game :=
  { g with
    currPlayer := if g.currPlayer.name = "Player1" then env.player2 else env.player1 }

/-- `handleClick(evt)` (lines 125-150), with `x = +evt.target.id` and the global
bindings `player1`, `player2` it reads at line 149. -/
def handleClick (env : Globals) (g : Game) (x : Int) : Game × Outcome :=
  match findSpotForCol g x with
  | .error e => (g, .threw e)
  | .ok none => (g, .ignored)
  | .ok (some y) =>
    let g1 : Game := g.place y x
    match placeInTable g1 y x with
    | .error e => (g1, .threw e)
    | .ok () =>
      match checkForWin g1 with
      | .error e => (g1, .threw e)
      | .ok true => (endGame g1, .win (winMessage g1))
      | .ok false =>
        if boardFull g1 then (endGame g1, .tie "Tie!")
        else (switchPlayers env g1, .next)

/-- A click on the top row: the browser runs `handleClick` only while the
listener is registered (lines 68 and 119). -/
def click (env : Globals) (g : Game) (x : Int) : Game × Outcome :=
  if g.listening then handleClick env g x else (g, .unheard)

/-- `makeBoard()` (lines 47-51) on the initial `board = []`. -/
def makeBoard (height width : Nat) : List Row :=
  List.replicate height (Row.fromLength width)

/-- `new Game(y, x)` (lines 29-41 and 55-57): the field initialisers read the
global `player1`; `makeHtmlBoard` advances the game counter and registers the
click listener. -/
def Game.new (env : Globals) (y x : Nat) : Globals × Game :=
  let n := env.gameNum + 1
  ({ env with gameNum := n },
    { WIDTH := x, HEIGHT := y, currPlayer := env.player1, board := makeBoard y x,
      listening := true, gameNum := n })

/-- `startGame()` (lines 192-200), with the two colour values read from the
form. -/
def startGame (env : Globals) (c1 c2 : String) : Globals × Game :=
  let p1 : Player := { ref := env.nextRef, name := "Player1", color := c1 }
  let p2 : Player := { ref := env.nextRef + 1, name := "Player2", color := c2 }
  Game.new { env with player1 := p1, player2 := p2, nextRef := env.nextRef + 2 } 6 7

/-! ## The scan with its reads recorded -/

/-- What the scan does, as far as its memory safety and its length are
concerned: a call of `_win` on one check list (one candidate line), and an
indexing `this.board[y][x]`. -/
inductive ScanEvent where
  | line (cells : List (Int × Int))
  | read (y x : Int)
deriving DecidableEq, Repr

/-- The event is a call of `_win`. -/
def ScanEvent.isLine : ScanEvent → Bool
  | .line _ => true
  | .read _ _ => false

/-- `winCell` with its read recorded: the four bounds tests come first, and
`this.board[y][x]` is indexed only when all of them hold. -/
def winCellLog (g : Game) (c : Int × Int) : Except JSError Bool × List ScanEvent :=
  if 0 ≤ c.1 ∧ c.1 < (g.HEIGHT : Int) ∧ 0 ≤ c.2 ∧ c.2 < (g.WIDTH : Int) then
    (match g.board[c.1.toNat]? with
      | none => .error .typeError
      | some row => .ok (decide (row.get c.2 = .piece g.currPlayer)),
     [.read c.1 c.2])
  else (.ok false, [])

/-- `everyE` with the events of the visited elements recorded. -/
def everyLog {α : Type} (f : α → Except JSError Bool × List ScanEvent) :
    List α → Except JSError Bool × List ScanEvent
  | [] => (.ok true, [])
  | a :: as =>
    match (f a).1 with
    | .error e => (.error e, (f a).2)
    | .ok false => (.ok false, (f a).2)
    | .ok true => ((everyLog f as).1, (f a).2 ++ (everyLog f as).2)

/-- `anyE` with the events of the visited elements recorded. -/
def anyLog {α : Type} (f : α → Except JSError Bool × List ScanEvent) :
    List α → Except JSError Bool × List ScanEvent
  | [] => (.ok false, [])
  | a :: as =>
    match (f a).1 with
    | .error e => (.error e, (f a).2)
    | .ok true => (.ok true, (f a).2)
    | .ok false => ((anyLog f as).1, (f a).2 ++ (anyLog f as).2)

/-- `_win(cells)` with its call and its reads recorded. -/
def _winLog (g : Game) (cells : List (Int × Int)) : Except JSError Bool × List ScanEvent :=
  ((everyLog (winCellLog g) cells).1, .line cells :: (everyLog (winCellLog g) cells).2)

/-- `checkForWin()` with the calls of `_win` and the reads of the board
recorded, in order. -/
def checkForWinLog (g : Game) : Except JSError Bool × List ScanEvent :=
  anyLog (fun y : Nat =>
    anyLog (fun x : Nat => anyLog (_winLog g) (checkLists (y : Int) (x : Int)))
      (List.range g.WIDTH))
    (List.range g.HEIGHT)

/-! ## Vocabulary of the statements -/

/-- What the board stores at row `y` (a row of the outer array) under key `x`;
`none` when the outer array has no row `y`. -/
def Game.slotAt (g : Game) (y : Nat) (x : Int) : Option Slot :=
  (g.board[y]?).map (fun row => row.get x)

/-- Cell `(y, x)` lies inside the grid and holds player `p`. -/
def Game.holds (g : Game) (p : Player) (y x : Int) : Prop :=
  0 ≤ y ∧ y < (g.HEIGHT : Int) ∧ 0 ≤ x ∧ x < (g.WIDTH : Int) ∧
    g.slotAt y.toNat x = some (.piece p)

/-- The four directional vectors `(dy, dx)`. -/
def directions : List (Int × Int) := [(0, 1), (1, 0), (1, 1), (1, -1)]

/-- Player `p` has four aligned cells: a start cell and a direction such that
the four cells `(y + k*dy, x + k*dx)`, `k = 0..3`, are inside the grid and hold
`p`. -/
def Game.hasFour (g : Game) (p : Player) : Prop :=
  ∃ y x : Int, ∃ d ∈ directions, ∀ k : Int, 0 ≤ k → k ≤ 3 →
    g.holds p (y + k * d.1) (x + k * d.2)

/-- Cell `(y, x)` is occupied: `board[y][x]` is a player (truthy). -/
def Game.occupied (g : Game) (y : Nat) (x : Int) : Prop :=
  (g.slotAt y x).map Slot.truthy = some true

/-- Cell `(y, x)` is empty: row `y` exists and `board[y][x]` is falsy. -/
def Game.vacant (g : Game) (y : Nat) (x : Int) : Prop :=
  (g.slotAt y x).map Slot.truthy = some false

instance (g : Game) (y : Nat) (x : Int) : Decidable (g.occupied y x) := by
  unfold Game.occupied; infer_instance

instance (g : Game) (y : Nat) (x : Int) : Decidable (g.vacant y x) := by
  unfold Game.vacant; infer_instance

/-- The board has the shape `makeBoard` gives it: `HEIGHT` rows, each of length
`WIDTH` with a value (a player or `undefined`) under each of the keys
`0 .. WIDTH-1`. -/
def Game.shaped (g : Game) : Prop :=
  g.board.length = g.HEIGHT ∧
    ∀ row ∈ g.board, row.length = g.WIDTH ∧ ∀ k : Nat, k < g.WIDTH → row.get (k : Int) ≠ .hole

instance (g : Game) : Decidable g.shaped := by
  unfold Game.shaped; infer_instance

/-- Every cell of the grid is occupied. -/
def Game.gridFull (g : Game) : Prop :=
  ∀ y : Nat, y < g.HEIGHT → ∀ x : Nat, x < g.WIDTH → g.occupied y (x : Int)

instance (g : Game) : Decidable g.gridFull := by
  unfold Game.gridFull; infer_instance

/-- The occupied cells of the grid. -/
def Game.occupiedCells (g : Game) : Finset (Nat × Nat) :=
  (Finset.range g.HEIGHT ×ˢ Finset.range g.WIDTH).filter
    (fun c => g.occupied c.1 (c.2 : Int))

/-- The number of occupied cells of the grid. -/
def Game.occupiedCount (g : Game) : Nat := g.occupiedCells.card

/-- Column `x` holds a stack of `m` pieces resting on the bottom row: its lowest
`m` cells are occupied and the cells above them are empty. -/
def Game.stacked (g : Game) (x : Int) (m : Nat) : Prop :=
  g.board.length = g.HEIGHT ∧ m ≤ g.HEIGHT ∧
    ∀ y : Nat, y < g.HEIGHT →
      (g.HEIGHT - m ≤ y → g.occupied y x) ∧ (y < g.HEIGHT - m → g.vacant y x)

/-- The outcomes of an accepted drop: a piece was placed and the handler ran to
its end. -/
def Outcome.accepted : Outcome → Bool
  | .win _ => true
  | .tie _ => true
  | .next => true
  | _ => false

/-- A sequence of clicks on the top row of one game, each with the globals in
force when it happens: the final state and the outcomes in order. -/
def clicks (g : Game) : List (Globals × Int) → Game × List Outcome
  | [] => (g, [])
  | (env, x) :: rest =>
    let r := click env g x
    let r2 := clicks r.1 rest
    (r2.1, r.2 :: r2.2)

/-- The rows `y` assigned at line 129 to the accepted drops into column `x`
during a sequence of clicks, in order. -/
def rowsInto (x : Int) (g : Game) : List (Globals × Int) → List Nat
  | [] => []
  | (env, c) :: rest =>
    let r := click env g c
    let later := rowsInto x r.1 rest
    if c = x ∧ r.2.accepted = true then
      match findSpotForCol g c with
      | .ok (some y) => y :: later
      | _ => later
    else later

/-- The outer array has `HEIGHT` rows, as `makeBoard` builds it. -/
def Game.hasRows (g : Game) : Prop := g.board.length = g.HEIGHT

/-- The cells of the grid that hold player `p`. -/
def Game.cellsOf (g : Game) (p : Player) : Finset (Nat × Nat) :=
  (Finset.range g.HEIGHT ×ˢ Finset.range g.WIDTH).filter
    (fun c => g.slotAt c.1 (c.2 : Int) = some (.piece p))

/-- The number of cells of the grid that hold player `p`. -/
def Game.countOf (g : Game) (p : Player) : Nat := (g.cellsOf p).card

/-- The outcomes that report the end of the game: a win or a tie. -/
def Outcome.ended : Outcome → Bool
  | .win _ => true
  | .tie _ => true
  | _ => false

/-- The localized check, in the spec's words: some in-bounds straight 4-cell
line (horizontal, vertical, or either diagonal) that contains `(y, x)` is
entirely `p`. -/
def Game.hasFourThrough (g : Game) (p : Player) (y x : Int) : Prop :=
  ∃ y0 x0 : Int, ∃ d ∈ directions,
    (∀ k : Int, 0 ≤ k → k ≤ 3 → g.holds p (y0 + k * d.1) (x0 + k * d.2)) ∧
    ∃ k : Int, 0 ≤ k ∧ k ≤ 3 ∧ y0 + k * d.1 = y ∧ x0 + k * d.2 = x

/-- A single game: `new Game(height, width)` followed by clicks on the columns
`xs`, with no further `startGame` in between (the globals stay as the
construction left them). The final state and the outcomes in order. -/
def singleGame (env : Globals) (height width : Nat) (xs : List Int) : Game × List Outcome :=
  clicks (Game.new env height width).2
    (xs.map (fun x => ((Game.new env height width).1, x)))

/-! ## Sample states -/

/-- The first player of the sample games. -/
def playerA : Player := { ref := 0, name := "Player1", color := "red" }

/-- The second player of the sample games. -/
def playerB : Player := { ref := 1, name := "Player2", color := "blue" }

/-- The globals after the first `startGame`. -/
def sampleEnv : Globals := { player1 := playerA, player2 := playerB, gameNum := 1, nextRef := 2 }

/-- A board given row by row, top row first; `0` is an empty cell, `1` is
`playerA`, anything else `playerB`. -/
def boardOf (rows : List (List Nat)) : List Row :=
  rows.map (fun cells =>
    { length := cells.length
      get := fun j =>
        if 0 ≤ j then
          match cells[j.toNat]? with
          | none => Slot.hole
          | some 0 => Slot.undef
          | some 1 => Slot.piece playerA
          | some _ => Slot.piece playerB
        else Slot.hole })

/-- A running 6 x 7 game with the given cells and player to move. -/
def sampleGame (rows : List (List Nat)) (p : Player) : Game :=
  { WIDTH := 7, HEIGHT := 6, currPlayer := p, board := boardOf rows, listening := true,
    gameNum := 1 }

/-- Player A holds `(5,0)`, `(5,1)`, `(5,2)`; B holds the cells above them. -/
def threeInRow : Game :=
  sampleGame
    [ [0, 0, 0, 0, 0, 0, 0],
      [0, 0, 0, 0, 0, 0, 0],
      [0, 0, 0, 0, 0, 0, 0],
      [0, 0, 0, 0, 0, 0, 0],
      [2, 2, 2, 0, 0, 0, 0],
      [1, 1, 1, 0, 0, 0, 0] ] playerA

/-- A full board without four aligned cells of either player, except that its
last empty cell `(0, 6)` is still free; B is to move. -/
def lastCellFree : Game :=
  sampleGame
    [ [1, 1, 2, 2, 1, 1, 0],
      [2, 2, 1, 1, 2, 2, 1],
      [1, 1, 2, 2, 1, 1, 2],
      [2, 2, 1, 1, 2, 2, 1],
      [1, 1, 2, 2, 1, 1, 2],
      [2, 2, 1, 1, 2, 2, 1] ] playerB

/-- The game `new Game(6, 7)` right after its construction. -/
def freshGame : Game := (Game.new sampleEnv 6 7).2

/-- The globals before the first `startGame`: no game and no `Player` object
yet. The two bindings are `undefined` then; `startGame` assigns both before
anything reads them, so the values given here are never used. -/
def initialEnv : Globals :=
  { player1 := playerA, player2 := playerB, gameNum := 0, nextRef := 0 }

/-- The first `startGame` of a session: the globals it leaves and game 1. -/
def firstStart : Globals × Game := startGame initialEnv "red" "blue"

/-- A second `startGame` while game 1 is still on the page: the globals it
leaves and game 2. -/
def secondStart : Globals × Game := startGame firstStart.1 "green" "gold"

/-- Game 1 after six drops (columns 0, 0, 1, 1, 2, 2) made before the second
`startGame`: its "Player1" holds `(5,0)`, `(5,1)`, `(5,2)` and is to move. -/
def gameOneEarly : Game :=
  (clicks firstStart.2
    [(firstStart.1, 0), (firstStart.1, 0), (firstStart.1, 1), (firstStart.1, 1),
      (firstStart.1, 2), (firstStart.1, 2)]).1

/-- Game 1 after the second `startGame` and two more drops, both into column 6. -/
def gameOneLate : Game :=
  (clicks gameOneEarly [(secondStart.1, 6), (secondStart.1, 6)]).1

/-! ## Short-circuit loops -/

theorem everyE_spec {α : Type} (f : α → Except JSError Bool) (P : α → Prop) (l : List α)
    (h : ∀ a ∈ l, ∃ b, f a = .ok b ∧ (b = true ↔ P a)) :
    ∃ b, everyE f l = .ok b ∧ (b = true ↔ ∀ a ∈ l, P a) := by
  induction l with
  | nil => exact ⟨true, rfl, by simp⟩
  | cons a as ih =>
    obtain ⟨b, hb, hP⟩ := h a (List.mem_cons_self a as)
    obtain ⟨b2, hb2, hP2⟩ := ih (fun c hc => h c (List.mem_cons_of_mem a hc))
    cases b with
    | false =>
      refine ⟨false, by simp [everyE, hb], ?_⟩
      have : ¬ P a := fun hp => by simpa using hP.mpr hp
      simp [this]
    | true =>
      refine ⟨b2, by simp [everyE, hb, hb2], ?_⟩
      have : P a := hP.mp rfl
      simp [this, hP2]

theorem anyE_spec {α : Type} (f : α → Except JSError Bool) (P : α → Prop) (l : List α)
    (h : ∀ a ∈ l, ∃ b, f a = .ok b ∧ (b = true ↔ P a)) :
    ∃ b, anyE f l = .ok b ∧ (b = true ↔ ∃ a ∈ l, P a) := by
  induction l with
  | nil => exact ⟨false, rfl, by simp⟩
  | cons a as ih =>
    obtain ⟨b, hb, hP⟩ := h a (List.mem_cons_self a as)
    obtain ⟨b2, hb2, hP2⟩ := ih (fun c hc => h c (List.mem_cons_of_mem a hc))
    cases b with
    | true =>
      refine ⟨true, by simp [anyE, hb], ?_⟩
      have : P a := hP.mp rfl
      simp [this]
    | false =>
      refine ⟨b2, by simp [anyE, hb, hb2], ?_⟩
      have : ¬ P a := fun hp => by simpa using hP.mpr hp
      simp [this, hP2]

/-! ## The win scan -/

theorem winCell_spec (g : Game) (hrows : g.hasRows) (c : Int × Int) :
    ∃ b, winCell g c = .ok b ∧ (b = true ↔ g.holds g.currPlayer c.1 c.2) := by
  unfold winCell Game.holds Game.slotAt
  by_cases hin : 0 ≤ c.1 ∧ c.1 < (g.HEIGHT : Int) ∧ 0 ≤ c.2 ∧ c.2 < (g.WIDTH : Int)
  · rw [if_pos hin]
    have hlt : c.1.toNat < g.board.length := by
      rw [hrows]; omega
    rw [List.getElem?_eq_getElem hlt]
    refine ⟨_, rfl, ?_⟩
    simp [hin.1, hin.2.1, hin.2.2.1, hin.2.2.2]
  · rw [if_neg hin]
    refine ⟨false, rfl, ?_⟩
    constructor
    · intro h; cases h
    · intro h; exact absurd ⟨h.1, h.2.1, h.2.2.1, h.2.2.2.1⟩ hin

/-- The scan as a whole: it does not throw, and it answers `true` exactly when
one of the check lists of some start cell of the grid is entirely the current
player's. -/
theorem checkForWin_lists (g : Game) (hrows : g.hasRows) :
    ∃ b, checkForWin g = .ok b ∧
      (b = true ↔ ∃ y ∈ List.range g.HEIGHT, ∃ x ∈ List.range g.WIDTH,
        ∃ cells ∈ checkLists (y : Int) (x : Int),
          ∀ c ∈ cells, g.holds g.currPlayer c.1 c.2) := by
  unfold checkForWin
  apply anyE_spec
  intro y _
  apply anyE_spec
  intro x _
  apply anyE_spec
  intro cells _
  unfold _win
  apply everyE_spec
  intro c _
  exact winCell_spec g hrows c

theorem four_of_lists (g : Game) (p : Player) (y x : Int)
    (h : ∃ cells ∈ checkLists y x, ∀ c ∈ cells, g.holds p c.1 c.2) : g.hasFour p := by
  obtain ⟨cells, hmem, hall⟩ := h
  simp only [checkLists, List.mem_cons, List.mem_singleton, List.not_mem_nil, or_false] at hmem
  have key : ∀ d ∈ directions,
      (∀ k : Int, 0 ≤ k → k ≤ 3 → (y + k * d.1, x + k * d.2) ∈ cells) → g.hasFour p :=
    fun d hd hk => ⟨y, x, d, hd, fun k h0 h3 => hall _ (hk k h0 h3)⟩
  rcases hmem with h | h | h | h
  · refine key (0, 1) (by simp [directions]) ?_
    intro k h0 h3
    have hk : k = 0 ∨ k = 1 ∨ k = 2 ∨ k = 3 := by omega
    rcases hk with rfl | rfl | rfl | rfl <;> simp [h]
  · refine key (1, 0) (by simp [directions]) ?_
    intro k h0 h3
    have hk : k = 0 ∨ k = 1 ∨ k = 2 ∨ k = 3 := by omega
    rcases hk with rfl | rfl | rfl | rfl <;> simp [h]
  · refine key (1, 1) (by simp [directions]) ?_
    intro k h0 h3
    have hk : k = 0 ∨ k = 1 ∨ k = 2 ∨ k = 3 := by omega
    rcases hk with rfl | rfl | rfl | rfl <;> simp [h]
  · refine key (1, -1) (by simp [directions]) ?_
    intro k h0 h3
    have hk : k = 0 ∨ k = 1 ∨ k = 2 ∨ k = 3 := by omega
    rcases hk with rfl | rfl | rfl | rfl <;> simp [h, sub_eq_add_neg]

theorem lists_of_four (g : Game) (p : Player) (h : g.hasFour p) :
    ∃ y ∈ List.range g.HEIGHT, ∃ x ∈ List.range g.WIDTH,
      ∃ cells ∈ checkLists (y : Int) (x : Int), ∀ c ∈ cells, g.holds p c.1 c.2 := by
  obtain ⟨y, x, d, hd, hk⟩ := h
  have h0 := hk 0 le_rfl (by norm_num)
  have h1 := hk 1 (by norm_num) (by norm_num)
  have h2 := hk 2 (by norm_num) (by norm_num)
  have h3 := hk 3 (by norm_num) le_rfl
  simp only [zero_mul, add_zero, one_mul] at h0 h1 h2 h3
  have hy : ((y.toNat : Nat) : Int) = y := Int.toNat_of_nonneg h0.1
  have hx : ((x.toNat : Nat) : Int) = x := Int.toNat_of_nonneg h0.2.2.1
  refine ⟨y.toNat, ?_, x.toNat, ?_, ?_⟩
  · rw [List.mem_range]; have := h0.2.1; omega
  · rw [List.mem_range]; have := h0.2.2.2.1; omega
  rw [hy, hx]
  simp only [directions, List.mem_cons, List.mem_singleton, List.not_mem_nil, or_false] at hd
  rcases hd with rfl | rfl | rfl | rfl
  · refine ⟨[(y, x), (y, x + 1), (y, x + 2), (y, x + 3)], by simp [checkLists], ?_⟩
    intro c hc
    simp only [List.mem_cons, List.mem_singleton, List.not_mem_nil, or_false] at hc
    simp only [mul_zero, mul_one, add_zero] at h1 h2 h3
    rcases hc with rfl | rfl | rfl | rfl <;> assumption
  · refine ⟨[(y, x), (y + 1, x), (y + 2, x), (y + 3, x)], by simp [checkLists], ?_⟩
    intro c hc
    simp only [List.mem_cons, List.mem_singleton, List.not_mem_nil, or_false] at hc
    simp only [mul_zero, mul_one, add_zero] at h1 h2 h3
    rcases hc with rfl | rfl | rfl | rfl <;> assumption
  · refine ⟨[(y, x), (y + 1, x + 1), (y + 2, x + 2), (y + 3, x + 3)],
      by simp [checkLists], ?_⟩
    intro c hc
    simp only [List.mem_cons, List.mem_singleton, List.not_mem_nil, or_false] at hc
    simp only [mul_one] at h1 h2 h3
    rcases hc with rfl | rfl | rfl | rfl <;> assumption
  · refine ⟨[(y, x), (y + 1, x - 1), (y + 2, x - 2), (y + 3, x - 3)],
      by simp [checkLists], ?_⟩
    intro c hc
    simp only [List.mem_cons, List.mem_singleton, List.not_mem_nil, or_false] at hc
    simp only [mul_one, mul_neg, ← sub_eq_add_neg] at h1 h2 h3
    rcases hc with rfl | rfl | rfl | rfl <;> assumption

/-- The scan, under the shape `makeBoard` gives the outer array: it returns
normally, and its answer is `true` exactly when the current player has four
aligned cells. -/
theorem checkForWin_spec (g : Game) (hrows : g.hasRows) :
    ∃ b, checkForWin g = .ok b ∧ (b = true ↔ g.hasFour g.currPlayer) := by
  obtain ⟨b, hb, hiff⟩ := checkForWin_lists g hrows
  refine ⟨b, hb, hiff.trans ⟨?_, lists_of_four g g.currPlayer⟩⟩
  rintro ⟨y, _, x, _, h⟩
  exact four_of_lists g g.currPlayer y x h

/-! ## The landing row -/

theorem occupied_not_vacant (g : Game) (y : Nat) (x : Int) (h : g.occupied y x) :
    ¬ g.vacant y x := by
  unfold Game.occupied at h
  unfold Game.vacant
  rw [h]
  simp

theorem findSpotForColLoop_spec (g : Game) (x : Int) (n : Nat) (hn : n ≤ g.board.length) :
    ∃ r, findSpotForColLoop g x n = .ok r ∧
      (∀ y, r = some y → y < n ∧ g.vacant y x ∧ ∀ y2, y < y2 → y2 < n → g.occupied y2 x) ∧
      (r = none → ∀ y, y < n → g.occupied y x) := by
  induction n with
  | zero =>
    refine ⟨none, rfl, ?_, ?_⟩
    · intro y h; cases h
    · intro _ y hy; omega
  | succ n ih =>
    have hlt : n < g.board.length := by omega
    obtain ⟨r, hr, hsome, hnone⟩ := ih (by omega)
    unfold findSpotForColLoop
    rw [List.getElem?_eq_getElem hlt]
    have hslot : g.slotAt n x = some ((g.board[n]).get x) := by
      simp [Game.slotAt, List.getElem?_eq_getElem hlt]
    by_cases ht : ((g.board[n]).get x).truthy = true
    · refine ⟨r, by simp [ht, hr], ?_, ?_⟩
      · intro y hy
        obtain ⟨h1, h2, h3⟩ := hsome y hy
        refine ⟨by omega, h2, ?_⟩
        intro y2 hlo hhi
        by_cases hy2 : y2 = n
        · subst hy2; simp [Game.occupied, hslot, ht]
        · exact h3 y2 hlo (by omega)
      · intro hy y hlt2
        by_cases hy2 : y = n
        · subst hy2; simp [Game.occupied, hslot, ht]
        · exact hnone hy y (by omega)
    · have hf : ((g.board[n]).get x).truthy = false := by simpa using ht
      refine ⟨some n, by simp [hf], ?_, ?_⟩
      · intro y hy
        cases hy
        refine ⟨by omega, by simp [Game.vacant, hslot, hf], ?_⟩
        intro y2 hlo hhi
        omega
      · intro h; cases h

/-- `findSpotForCol` on a board with `HEIGHT` rows: it returns normally; a
returned row is empty with only occupied cells below it; `null` means that the
whole column is occupied. -/
theorem findSpotForCol_spec (g : Game) (hrows : g.hasRows) (x : Int) :
    ∃ r, findSpotForCol g x = .ok r ∧
      (∀ y, r = some y →
        y < g.HEIGHT ∧ g.vacant y x ∧ ∀ y2, y < y2 → y2 < g.HEIGHT → g.occupied y2 x) ∧
      (r = none → ∀ y, y < g.HEIGHT → g.occupied y x) :=
  findSpotForColLoop_spec g x g.HEIGHT (le_of_eq hrows.symm)

/-! ## The click handler -/

theorem setCell_length (b : List Row) (y : Nat) (x : Int) (v : Slot) :
    (setCell b y x v).length = b.length := by
  unfold setCell
  split <;> simp

theorem setCell_getElem? (b : List Row) (y : Nat) (x : Int) (v : Slot) (y2 : Nat) :
    (setCell b y x v)[y2]? =
      if y2 = y then (b[y]?).map (fun row => row.set x v) else b[y2]? := by
  unfold setCell
  cases hb : b[y]? with
  | none =>
    by_cases h : y2 = y
    · subst h; simp [hb]
    · simp [h]
  | some row =>
    have hlt : y < b.length := (List.getElem?_eq_some.mp hb).1
    by_cases h : y2 = y
    · subst h; simp [List.getElem?_set, hlt]
    · simp [List.getElem?_set, h, Ne.symm h]

theorem place_slotAt (g : Game) (y : Nat) (x : Int) (y2 : Nat) (x2 : Int) :
    (g.place y x).slotAt y2 x2 =
      if y2 = y ∧ x2 = x then (g.slotAt y x).map (fun _ => Slot.piece g.currPlayer)
      else g.slotAt y2 x2 := by
  unfold Game.slotAt Game.place
  simp only [setCell_getElem?]
  by_cases hy : y2 = y
  · subst hy
    by_cases hx : x2 = x
    · subst hx
      cases g.board[y2]? <;> simp [Row.set]
    · cases g.board[y2]? <;> simp [Row.set, hx]
  · simp [hy]

theorem place_hasRows (g : Game) (y : Nat) (x : Int) (h : g.hasRows) :
    (g.place y x).hasRows := by
  unfold Game.hasRows Game.place at *
  simp only [setCell_length]
  exact h

/-- The paths through `handleClick`, one disjunct per exit. -/
theorem handleClick_paths (env : Globals) (g : Game) (x : Int) :
    (∃ e, findSpotForCol g x = .error e ∧ handleClick env g x = (g, .threw e)) ∨
    (findSpotForCol g x = .ok none ∧ handleClick env g x = (g, .ignored)) ∨
    (∃ y, findSpotForCol g x = .ok (some y) ∧
      ((∃ e, placeInTable (g.place y x) y x = .error e ∧
          handleClick env g x = (g.place y x, .threw e)) ∨
       (placeInTable (g.place y x) y x = .ok () ∧
        ((∃ e, checkForWin (g.place y x) = .error e ∧
            handleClick env g x = (g.place y x, .threw e)) ∨
         (checkForWin (g.place y x) = .ok true ∧
            handleClick env g x =
              (endGame (g.place y x), .win (winMessage (g.place y x)))) ∨
         (checkForWin (g.place y x) = .ok false ∧ boardFull (g.place y x) = true ∧
            handleClick env g x = (endGame (g.place y x), .tie "Tie!")) ∨
         (checkForWin (g.place y x) = .ok false ∧ boardFull (g.place y x) = false ∧
            handleClick env g x = (switchPlayers env (g.place y x), .next)))))) := by
  cases hf : findSpotForCol g x with
  | error e => exact Or.inl ⟨e, rfl, by simp [handleClick, hf]⟩
  | ok r =>
    cases r with
    | none => exact Or.inr (Or.inl ⟨rfl, by simp [handleClick, hf]⟩)
    | some y =>
      refine Or.inr (Or.inr ⟨y, rfl, ?_⟩)
      cases hp : placeInTable (g.place y x) y x with
      | error e => exact Or.inl ⟨e, rfl, by simp [handleClick, hf, hp]⟩
      | ok u =>
        refine Or.inr ⟨rfl, ?_⟩
        cases hw : checkForWin (g.place y x) with
        | error e => exact Or.inl ⟨e, rfl, by simp [handleClick, hf, hp, hw]⟩
        | ok b =>
          cases b with
          | true => exact Or.inr (Or.inl ⟨rfl, by simp [handleClick, hf, hp, hw]⟩)
          | false =>
            cases hb : boardFull (g.place y x) with
            | true =>
              exact Or.inr (Or.inr (Or.inl ⟨rfl, rfl, by simp [handleClick, hf, hp, hw, hb]⟩))
            | false =>
              exact Or.inr (Or.inr (Or.inr ⟨rfl, rfl, by simp [handleClick, hf, hp, hw, hb]⟩))

/-- An accepted drop: on a board with `HEIGHT` rows, for a column of the grid
with a spot, the handler places the piece, the scan returns normally, and the
three exits are taken in the order win, tie, next. -/
theorem handleClick_accept (env : Globals) (g : Game) (hrows : g.hasRows) (x : Int)
    (hx0 : 0 ≤ x) (hxW : x < (g.WIDTH : Int)) (y : Nat)
    (hy : findSpotForCol g x = .ok (some y)) :
    ∃ b, checkForWin (g.place y x) = .ok b ∧
      (b = true ↔ (g.place y x).hasFour g.currPlayer) ∧
      handleClick env g x =
        if b = true then (endGame (g.place y x), .win (winMessage (g.place y x)))
        else if boardFull (g.place y x) = true then (endGame (g.place y x), .tie "Tie!")
        else (switchPlayers env (g.place y x), .next) := by
  obtain ⟨r, hr, hsome, _⟩ := findSpotForCol_spec g hrows x
  rw [hy] at hr
  cases hr
  have hyH : y < g.HEIGHT := (hsome y rfl).1
  obtain ⟨b, hb, hiff⟩ := checkForWin_spec (g.place y x) (place_hasRows g y x hrows)
  refine ⟨b, hb, hiff, ?_⟩
  have hp : placeInTable (g.place y x) y x = .ok () := by
    unfold placeInTable
    rw [if_pos]
    exact ⟨hyH, hx0, hxW⟩
  rcases handleClick_paths env g x with ⟨e, h1, _⟩ | ⟨h1, _⟩ | ⟨y2, h1, h2⟩
  · rw [hy] at h1; cases h1
  · rw [hy] at h1; cases h1
  · rw [hy] at h1
    cases h1
    rcases h2 with ⟨e, h3, _⟩ | ⟨_, h3⟩
    · rw [hp] at h3; cases h3
    · rcases h3 with ⟨e, h4, _⟩ | ⟨h4, h5⟩ | ⟨h4, h5, h6⟩ | ⟨h4, h5, h6⟩
      · rw [hb] at h4; cases h4
      · rw [hb] at h4; cases h4; simp [h5]
      · rw [hb] at h4; cases h4; simp [h5, h6]
      · rw [hb] at h4; cases h4; simp [h5, h6]

theorem spot_of_vacant (g : Game) (hrows : g.hasRows) (x : Int)
    (hfree : ∃ y, y < g.HEIGHT ∧ g.vacant y x) :
    ∃ y, findSpotForCol g x = .ok (some y) ∧ y < g.HEIGHT ∧ g.vacant y x ∧
      ∀ y2, y < y2 → y2 < g.HEIGHT → g.occupied y2 x := by
  obtain ⟨r, hr, hsome, hnone⟩ := findSpotForCol_spec g hrows x
  cases r with
  | none =>
    obtain ⟨y, hy, hv⟩ := hfree
    exact absurd hv (occupied_not_vacant g y x (hnone rfl y hy))
  | some y => exact ⟨y, hr, hsome y rfl⟩

/-! ## The tie test and the shape of the board -/

theorem Row.every_truthy_iff (row : Row) (w : Nat) (hlen : row.length = w)
    (hno : ∀ k : Nat, k < w → row.get (k : Int) ≠ .hole) :
    row.every Slot.truthy = true ↔ ∀ k : Nat, k < w → (row.get (k : Int)).truthy = true := by
  unfold Row.every
  rw [List.all_eq_true, hlen]
  constructor
  · intro h k hk
    have := h k (List.mem_range.mpr hk)
    have hne := hno k hk
    cases hg : row.get (k : Int) with
    | hole => exact absurd hg hne
    | undef => rw [hg] at this; exact this
    | piece p => rfl
  · intro h k hk
    have := h k (List.mem_range.mp hk)
    cases hg : row.get (k : Int) with
    | hole => rfl
    | undef => simp [hg, Slot.truthy] at this
    | piece p => rfl

theorem boardFull_iff (g : Game) (hs : g.shaped) : boardFull g = true ↔ g.gridFull := by
  obtain ⟨hrows, hrow⟩ := hs
  unfold boardFull Game.gridFull Game.occupied Game.slotAt
  rw [List.all_eq_true]
  constructor
  · intro h y hy x hx
    have hlt : y < g.board.length := by omega
    have hmem : g.board[y] ∈ g.board := List.getElem_mem hlt
    have hr := hrow _ hmem
    have := (Row.every_truthy_iff _ g.WIDTH hr.1 hr.2).mp (h _ hmem) x hx
    simp [List.getElem?_eq_getElem hlt, this]
  · intro h row hmem
    obtain ⟨y, hlt, rfl⟩ := List.mem_iff_getElem.mp hmem
    have hr := hrow _ hmem
    apply (Row.every_truthy_iff _ g.WIDTH hr.1 hr.2).mpr
    intro k hk
    have := h y (by omega) k hk
    simpa [List.getElem?_eq_getElem hlt] using this

theorem setCell_mem (b : List Row) (y : Nat) (x : Int) (v : Slot) (row : Row)
    (h : row ∈ setCell b y x v) : row ∈ b ∨ ∃ r ∈ b, row = r.set x v := by
  obtain ⟨n, hn⟩ := List.mem_iff_getElem?.mp h
  rw [setCell_getElem?] at hn
  by_cases hy : n = y
  · rw [if_pos hy] at hn
    cases hb : b[y]? with
    | none => rw [hb] at hn; cases hn
    | some r =>
      rw [hb] at hn
      cases hn
      exact Or.inr ⟨r, List.mem_iff_getElem?.mpr ⟨y, hb⟩, rfl⟩
  · rw [if_neg hy] at hn
    exact Or.inl (List.mem_iff_getElem?.mpr ⟨n, hn⟩)

theorem place_shaped (g : Game) (hs : g.shaped) (y : Nat) (x : Int)
    (hxW : x < (g.WIDTH : Int)) : (g.place y x).shaped := by
  obtain ⟨hrows, hrow⟩ := hs
  refine ⟨place_hasRows g y x hrows, ?_⟩
  intro row hmem
  rcases setCell_mem g.board y x _ row hmem with h | ⟨r, hr, rfl⟩
  · exact hrow row h
  · obtain ⟨hlen, hno⟩ := hrow r hr
    constructor
    · show (if (r.length : Int) ≤ x ∧ x ≤ maxArrayIndex then (x + 1).toNat else r.length) =
        g.WIDTH
      rw [if_neg (fun h => by omega)]
      exact hlen
    · intro k hk
      show (if (k : Int) = x then Slot.piece g.currPlayer else r.get (k : Int)) ≠ Slot.hole
      by_cases hkx : (k : Int) = x
      · rw [if_pos hkx]; simp
      · rw [if_neg hkx]; exact hno k hk

/-! ## What a click changes -/

theorem slotAt_congr (g g2 : Game) (h : g2.board = g.board) (y : Nat) (x : Int) :
    g2.slotAt y x = g.slotAt y x := by
  unfold Game.slotAt
  rw [h]

/-- The frame of `handleClick`: the dimensions stay, and the board is either
untouched or the board with the piece placed at the spot of the column. -/
theorem handleClick_frame (env : Globals) (g : Game) (x : Int) :
    (handleClick env g x).1.HEIGHT = g.HEIGHT ∧ (handleClick env g x).1.WIDTH = g.WIDTH ∧
      (((∀ y, findSpotForCol g x ≠ .ok (some y)) ∧ (handleClick env g x).1 = g) ∨
        ∃ y, findSpotForCol g x = .ok (some y) ∧
          (handleClick env g x).1.board = (g.place y x).board) := by
  rcases handleClick_paths env g x with ⟨e, hf, h⟩ | ⟨hf, h⟩ | ⟨y, hf, h2⟩
  · rw [h]
    exact ⟨rfl, rfl, Or.inl ⟨fun y hy => (by rw [hf] at hy; cases hy), rfl⟩⟩
  · rw [h]
    exact ⟨rfl, rfl, Or.inl ⟨fun y hy => (by rw [hf] at hy; cases hy), rfl⟩⟩
  · rcases h2 with ⟨e, _, h⟩ | ⟨_, h3⟩
    · rw [h]; exact ⟨rfl, rfl, Or.inr ⟨y, hf, rfl⟩⟩
    · rcases h3 with ⟨e, _, h⟩ | ⟨_, h⟩ | ⟨_, _, h⟩ | ⟨_, _, h⟩
      · rw [h]; exact ⟨rfl, rfl, Or.inr ⟨y, hf, rfl⟩⟩
      · rw [h]; exact ⟨rfl, rfl, Or.inr ⟨y, hf, rfl⟩⟩
      · rw [h]; exact ⟨rfl, rfl, Or.inr ⟨y, hf, rfl⟩⟩
      · rw [h]; exact ⟨rfl, rfl, Or.inr ⟨y, hf, rfl⟩⟩

/-- A click on column `x` leaves every other key of every row alone. -/
theorem handleClick_other_keys (env : Globals) (g : Game) (x : Int) (y2 : Nat) (x2 : Int)
    (hne : x2 ≠ x) : (handleClick env g x).1.slotAt y2 x2 = g.slotAt y2 x2 := by
  rcases (handleClick_frame env g x).2.2 with ⟨_, h⟩ | ⟨y, _, h⟩
  · rw [h]
  · rw [slotAt_congr _ _ h, place_slotAt, if_neg (fun hc => hne hc.2)]

theorem setCell_lengths (b : List Row) (y : Nat) (x : Int) (v : Slot)
    (hlen : ∀ row ∈ b, x < (row.length : Int)) :
    (setCell b y x v).map Row.length = b.map Row.length := by
  apply List.ext_getElem?
  intro n
  rw [List.getElem?_map, List.getElem?_map, setCell_getElem?]
  by_cases hn : n = y
  · subst hn
    rw [if_pos rfl]
    cases hb : b[n]? with
    | none => rfl
    | some row =>
      have hmem : row ∈ b := List.mem_iff_getElem?.mpr ⟨n, hb⟩
      have := hlen row hmem
      simp only [Option.map_some', Row.set]
      rw [if_neg (fun h => by omega)]
  · rw [if_neg hn]

/-! ## Claims about the scan and the landing row -/

/-- C1: on every board with `HEIGHT` rows and for every current player,
`checkForWin` returns normally, and it reports a win if and only if there are a
start cell `(y, x)` and a direction among `(0,+1)`, `(+1,0)`, `(+1,+1)`,
`(+1,-1)` such that the four cells `(y + k*dy, x + k*dx)`, `k = 0..3`, are all
inside the grid and all hold the current player. -/
theorem checkForWin_iff_four_aligned (g : Game) (hrows : g.board.length = g.HEIGHT) :
    ∃ b, checkForWin g = .ok b ∧
      (b = true ↔ ∃ y x : Int, ∃ d ∈ directions, ∀ k : Int, 0 ≤ k → k ≤ 3 →
        g.holds g.currPlayer (y + k * d.1) (x + k * d.2)) :=
  checkForWin_spec g hrows

/-- Three in a row is not a win: the scan answers `false` on `threeInRow`, and
by C1 player A has no four aligned cells there. -/
theorem checkForWin_iff_four_aligned_witness :
    threeInRow.board.length = threeInRow.HEIGHT ∧
      checkForWin threeInRow = .ok false ∧
      ¬ ∃ y x : Int, ∃ d ∈ directions, ∀ k : Int, 0 ≤ k → k ≤ 3 →
        threeInRow.holds playerA (y + k * d.1) (x + k * d.2) := by
  refine ⟨rfl, rfl, ?_⟩
  obtain ⟨b, hb, hiff⟩ := checkForWin_iff_four_aligned threeInRow rfl
  have hfalse : checkForWin threeInRow = .ok false := rfl
  rw [hfalse] at hb
  cases hb
  intro h
  exact Bool.false_ne_true (hiff.mpr h)

/-- C2: on every board with `HEIGHT` rows and for every column `x`,
`findSpotForCol(x)` returns normally; it returns `y` if and only if `y` is the
largest row index of the grid whose cell `board[y][x]` is empty, and it returns
`null` if and only if every cell of column `x` is occupied. -/
theorem findSpotForCol_largest_empty (g : Game) (hrows : g.board.length = g.HEIGHT)
    (x : Int) :
    ∃ r, findSpotForCol g x = .ok r ∧
      (∀ y, r = some y ↔
        (y < g.HEIGHT ∧ g.vacant y x ∧ ∀ y2, y2 < g.HEIGHT → g.vacant y2 x → y2 ≤ y)) ∧
      (r = none ↔ ∀ y, y < g.HEIGHT → g.occupied y x) := by
  obtain ⟨r, hr, hsome, hnone⟩ := findSpotForCol_spec g hrows x
  refine ⟨r, hr, ?_, ?_⟩
  · intro y
    constructor
    · intro hy
      obtain ⟨h1, h2, h3⟩ := hsome y hy
      refine ⟨h1, h2, ?_⟩
      intro y2 hlt hv
      by_contra hgt
      exact occupied_not_vacant g y2 x (h3 y2 (by omega) hlt) hv
    · rintro ⟨h1, h2, h3⟩
      cases r with
      | none => exact absurd h2 (occupied_not_vacant g y x (hnone rfl y h1))
      | some y1 =>
        obtain ⟨k1, k2, k3⟩ := hsome y1 rfl
        have hle : y1 ≤ y := h3 y1 k1 k2
        have hge : y ≤ y1 := by
          by_contra hgt
          exact occupied_not_vacant g y x (k3 y (by omega) h1) h2
        have : y1 = y := by omega
        rw [this]
  · constructor
    · exact hnone
    · intro hall
      cases r with
      | none => rfl
      | some y1 =>
        obtain ⟨k1, k2, _⟩ := hsome y1 rfl
        exact absurd k2 (occupied_not_vacant g y1 x (hall y1 k1))

/-- In `threeInRow` column 0 holds two pieces, so the landing row is 3. -/
theorem findSpotForCol_largest_empty_witness :
    threeInRow.board.length = threeInRow.HEIGHT ∧ findSpotForCol threeInRow 0 = .ok (some 3) ∧
      threeInRow.vacant 3 0 ∧ ∀ y2, y2 < threeInRow.HEIGHT → threeInRow.vacant y2 0 → y2 ≤ 3 := by
  obtain ⟨r, hr, hsome, _⟩ := findSpotForCol_largest_empty threeInRow rfl 0
  have h3 : findSpotForCol threeInRow 0 = .ok (some 3) := rfl
  rw [h3] at hr
  cases hr
  exact ⟨rfl, rfl, ((hsome 3).mp rfl).2⟩

/-! ## Claims about the click handler -/

/-- C3: for every state whose board has `HEIGHT` rows and every in-range column
`x` with an empty cell, `handleClick` ends with the win exit if and only if,
once the current player's piece is placed at the landing cell of column `x`, the
current player has four aligned in-grid cells; in that case the listener is
removed and the message names the current player. -/
theorem handleClick_win_iff_four (env : Globals) (g : Game)
    (hrows : g.board.length = g.HEIGHT) (x : Int) (hx0 : 0 ≤ x) (hxW : x < (g.WIDTH : Int))
    (hfree : ∃ y, y < g.HEIGHT ∧ g.vacant y x) :
    ∃ y, findSpotForCol g x = .ok (some y) ∧
      ((∃ m, (handleClick env g x).2 = .win m) ↔ (g.place y x).hasFour g.currPlayer) ∧
      ((g.place y x).hasFour g.currPlayer →
        handleClick env g x =
          ({ g.place y x with listening := false },
            .win (g.currPlayer.name ++ " won game " ++ toString g.gameNum ++ "!"))) := by
  obtain ⟨y, hy, _⟩ := spot_of_vacant g hrows x hfree
  obtain ⟨b, _, hiff, hres⟩ := handleClick_accept env g hrows x hx0 hxW y hy
  refine ⟨y, hy, ⟨?_, ?_⟩, ?_⟩
  · rintro ⟨m, hm⟩
    apply hiff.mp
    cases b with
    | true => rfl
    | false =>
      rw [hres] at hm
      by_cases hb : boardFull (g.place y x) = true
      · simp [hb] at hm
      · simp [hb] at hm
  · intro h4
    have hb : b = true := hiff.mpr h4
    rw [hres, if_pos hb]
    exact ⟨_, rfl⟩
  · intro h4
    have hb : b = true := hiff.mpr h4
    rw [hres, if_pos hb]
    rfl

/-- The spec's scenario: A holds `(5,0)`, `(5,1)`, `(5,2)`, column 3 is empty and
A is to move; dropping into column 3 is a win for A. -/
theorem handleClick_win_iff_four_witness :
    threeInRow.board.length = threeInRow.HEIGHT ∧ (0 : Int) ≤ 3 ∧
      (3 : Int) < (threeInRow.WIDTH : Int) ∧ threeInRow.vacant 5 3 ∧
      (handleClick sampleEnv threeInRow 3).2 = .win "Player1 won game 1!" ∧
      (threeInRow.place 5 3).hasFour playerA := by
  obtain ⟨y, hy, hiff, _⟩ :=
    handleClick_win_iff_four sampleEnv threeInRow rfl 3 (by decide) (by decide)
      ⟨5, by decide, by decide⟩
  have h5 : findSpotForCol threeInRow 3 = .ok (some 5) := rfl
  rw [h5] at hy
  cases hy
  have hout : (handleClick sampleEnv threeInRow 3).2 = .win "Player1 won game 1!" := by
    decide
  exact ⟨rfl, by decide, by decide, by decide, hout, hiff.mp ⟨_, hout⟩⟩

theorem handleClick_currPlayer (env : Globals) (g : Game) (x : Int) :
    ((handleClick env g x).2 = .next →
      (handleClick env g x).1.currPlayer =
        if g.currPlayer.name = "Player1" then env.player2 else env.player1) ∧
    ((handleClick env g x).2 ≠ .next → (handleClick env g x).1.currPlayer = g.currPlayer) := by
  rcases handleClick_paths env g x with ⟨e, _, h⟩ | ⟨_, h⟩ | ⟨y, _, h2⟩
  · rw [h]; simp
  · rw [h]; simp
  · rcases h2 with ⟨e, _, h⟩ | ⟨_, h3⟩
    · rw [h]; simp [Game.place]
    · rcases h3 with ⟨e, _, h⟩ | ⟨_, h⟩ | ⟨_, _, h⟩ | ⟨_, _, h⟩
      · rw [h]; simp [Game.place]
      · rw [h]; simp [Game.place, endGame]
      · rw [h]; simp [Game.place, endGame]
      · rw [h]; simp [Game.place, switchPlayers]

/-- The turn switch relative to the globals in force at the click: with
`player1` named "Player1" and `player2` named "Player2", a drop that ends in
neither a win nor a tie switches `currPlayer` from that `player1` to that
`player2` and back; a drop that ends in a win or a tie leaves `currPlayer`
unchanged. -/
theorem handleClick_turn (env : Globals) (g : Game) (x : Int)
    (hn1 : env.player1.name = "Player1") (hn2 : env.player2.name = "Player2") :
    ((handleClick env g x).2 = .next →
      (g.currPlayer = env.player1 → (handleClick env g x).1.currPlayer = env.player2) ∧
      (g.currPlayer = env.player2 → (handleClick env g x).1.currPlayer = env.player1)) ∧
    (∀ m, (handleClick env g x).2 = .win m ∨ (handleClick env g x).2 = .tie m →
      (handleClick env g x).1.currPlayer = g.currPlayer) := by
  obtain ⟨hnext, hother⟩ := handleClick_currPlayer env g x
  refine ⟨fun h => ⟨?_, ?_⟩, ?_⟩
  · intro hc
    rw [hnext h, hc, if_pos hn1]
  · intro hc
    rw [hnext h, hc, hn2, if_neg (by decide)]
  · intro m hm
    apply hother
    rcases hm with hm | hm <;> rw [hm] <;> simp

/-- On `threeInRow` a drop of A into column 4 continues the game with B to move. -/
theorem handleClick_turn_witness :
    sampleEnv.player1.name = "Player1" ∧ sampleEnv.player2.name = "Player2" ∧
      (handleClick sampleEnv threeInRow 4).2 = .next ∧
      (handleClick sampleEnv threeInRow 4).1.currPlayer = playerB :=
  ⟨rfl, rfl, by decide,
    ((handleClick_turn sampleEnv threeInRow 4 rfl rfl).1 (by decide)).1 rfl⟩

/-- C5 fails on the code: after a second `startGame`, an accepted drop on game 1
that ends in neither a win nor a tie sets its `currPlayer` to the `Player2`
object of the second start (identity 3) instead of the other of game 1's two
players (identity 1), because line 149 reads the reassigned globals; the same
drop before the second start gives game 1's other player. -/
theorem turn_switch_reads_reassigned_globals :
    firstStart.2.currPlayer = firstStart.1.player1 ∧
      firstStart.1.player1.ref = 0 ∧ firstStart.1.player2.ref = 1 ∧
      (handleClick firstStart.1 firstStart.2 0).2 = .next ∧
      (handleClick firstStart.1 firstStart.2 0).1.currPlayer = firstStart.1.player2 ∧
      (handleClick secondStart.1 firstStart.2 0).2 = .next ∧
      (handleClick secondStart.1 firstStart.2 0).1.currPlayer.ref = 3 ∧
      (handleClick secondStart.1 firstStart.2 0).1.currPlayer ≠ firstStart.1.player2 ∧
      (handleClick secondStart.1 firstStart.2 0).1.currPlayer ≠ firstStart.1.player1 := by
  decide

/-- C6: for every state whose board has `HEIGHT` rows and every column `x` whose
cells are all occupied, `handleClick` on `x` takes the `return` of line 131: the
state (board, `currPlayer`, listener) is returned as it was. -/
theorem handleClick_full_column (env : Globals) (g : Game)
    (hrows : g.board.length = g.HEIGHT) (x : Int)
    (hfull : ∀ y, y < g.HEIGHT → g.occupied y x) :
    handleClick env g x = (g, .ignored) := by
  obtain ⟨r, hr, hsome, _⟩ := findSpotForCol_spec g hrows x
  cases r with
  | some y =>
    obtain ⟨h1, h2, _⟩ := hsome y rfl
    exact absurd h2 (occupied_not_vacant g y x (hfull y h1))
  | none =>
    rcases handleClick_paths env g x with ⟨e, h1, _⟩ | ⟨_, h⟩ | ⟨y, h1, _⟩
    · rw [hr] at h1; cases h1
    · exact h
    · rw [hr] at h1; cases h1

/-- Column 0 of `lastCellFree` is full: a click on it changes nothing. -/
theorem handleClick_full_column_witness :
    lastCellFree.board.length = lastCellFree.HEIGHT ∧
      (∀ y, y < lastCellFree.HEIGHT → lastCellFree.occupied y 0) ∧
      handleClick sampleEnv lastCellFree 0 = (lastCellFree, .ignored) :=
  ⟨rfl, by decide, handleClick_full_column sampleEnv lastCellFree rfl 0 (by decide)⟩

theorem handleClick_end_listening (env : Globals) (g : Game) (x : Int)
    (hend : ∃ m, (handleClick env g x).2 = .win m ∨ (handleClick env g x).2 = .tie m) :
    (handleClick env g x).1.listening = false := by
  obtain ⟨m, hm⟩ := hend
  rcases handleClick_paths env g x with ⟨e, _, h⟩ | ⟨_, h⟩ | ⟨y, _, h2⟩
  · rw [h] at hm; simp at hm
  · rw [h] at hm; simp at hm
  · rcases h2 with ⟨e, _, h⟩ | ⟨_, h3⟩
    · rw [h] at hm; simp at hm
    · rcases h3 with ⟨e, _, h⟩ | ⟨_, h⟩ | ⟨_, _, h⟩ | ⟨_, _, h⟩
      · rw [h] at hm; simp at hm
      · rw [h]; rfl
      · rw [h]; rfl
      · rw [h] at hm; simp at hm

theorem clicks_unheard (g : Game) (h : g.listening = false) (cs : List (Globals × Int)) :
    clicks g cs = (g, cs.map (fun _ => Outcome.unheard)) := by
  induction cs with
  | nil => rfl
  | cons c rest ih =>
    obtain ⟨env, x⟩ := c
    have hc : click env g x = (g, .unheard) := by simp [click, h]
    simp [clicks, hc, ih]

/-- C8 fails as stated for calls of `handleClick` itself, which has no test for
the end of the game: called with column 0 on the state after A's win on
`threeInRow`, it places A at the empty cell `(3, 0)` and reports a win again. -/
theorem handleClick_after_win_still_places :
    (handleClick sampleEnv threeInRow 3).2 = .win "Player1 won game 1!" ∧
      (handleClick sampleEnv threeInRow 3).1.listening = false ∧
      (handleClick sampleEnv threeInRow 3).1.slotAt 3 0 = some .undef ∧
      (handleClick sampleEnv (handleClick sampleEnv threeInRow 3).1 0).1.slotAt 3 0 =
        some (.piece playerA) ∧
      (handleClick sampleEnv (handleClick sampleEnv threeInRow 3).1 0).2 =
        .win "Player1 won game 1!" ∧
      (handleClick sampleEnv (handleClick sampleEnv threeInRow 3).1 0).1.board ≠
        (handleClick sampleEnv threeInRow 3).1.board := by
  refine ⟨by decide, by decide, by decide, by decide, by decide, ?_⟩
  intro h
  have h2 := congrArg (fun b => (b[3]?).map (fun row => row.get 0)) h
  revert h2
  decide

/-- C8 as amended: once `handleClick` has ended a game with a win or a tie, the
click listener is removed (`endGame`, line 119), so no later click on the top
row runs the handler: every later sequence of clicks, for any columns, leaves
the state (board, `currPlayer`) as it is and reports no new outcome. -/
theorem no_placement_after_end (env : Globals) (g : Game) (x : Int)
    (hend : ∃ m, (handleClick env g x).2 = .win m ∨ (handleClick env g x).2 = .tie m)
    (later : List (Globals × Int)) :
    clicks (handleClick env g x).1 later =
      ((handleClick env g x).1, later.map (fun _ => Outcome.unheard)) :=
  clicks_unheard _ (handleClick_end_listening env g x hend) later

/-- After A has won on `threeInRow` by a drop into column 3, two more clicks are
not heard. -/
theorem no_placement_after_end_witness :
    (handleClick sampleEnv threeInRow 3).2 = .win "Player1 won game 1!" ∧
      clicks (handleClick sampleEnv threeInRow 3).1 [(sampleEnv, 0), (sampleEnv, 3)] =
        ((handleClick sampleEnv threeInRow 3).1, [.unheard, .unheard]) :=
  ⟨by decide,
    no_placement_after_end sampleEnv threeInRow 3
      ⟨"Player1 won game 1!", Or.inl (by decide)⟩ [(sampleEnv, 0), (sampleEnv, 3)]⟩

/-- C4: for every accepted drop on a board of `HEIGHT` x `WIDTH` cells,
`handleClick` takes the tie exit if and only if, after the piece is placed, the
mover has no four aligned cells and every cell of the grid is occupied; a drop
that fills the last empty cell never continues the game, and a full board with a
winning line of the mover is a win, not a tie. -/
theorem handleClick_tie_iff_full (env : Globals) (g : Game) (hshape : g.shaped)
    (x : Int) (hx0 : 0 ≤ x) (hxW : x < (g.WIDTH : Int))
    (hfree : ∃ y, y < g.HEIGHT ∧ g.vacant y x) :
    ∃ y, findSpotForCol g x = .ok (some y) ∧
      ((∃ m, (handleClick env g x).2 = .tie m) ↔
        (¬ (g.place y x).hasFour g.currPlayer ∧ (g.place y x).gridFull)) ∧
      ((g.place y x).gridFull → (handleClick env g x).2 ≠ .next) ∧
      ((g.place y x).gridFull → (g.place y x).hasFour g.currPlayer →
        ∃ m, (handleClick env g x).2 = .win m) := by
  obtain ⟨y, hy, _⟩ := spot_of_vacant g hshape.1 x hfree
  obtain ⟨b, _, hiff, hres⟩ := handleClick_accept env g hshape.1 x hx0 hxW y hy
  have hfull := boardFull_iff (g.place y x) (place_shaped g hshape y x hxW)
  refine ⟨y, hy, ⟨?_, ?_⟩, ?_, ?_⟩
  · rintro ⟨m, hm⟩
    rw [hres] at hm
    cases b with
    | true => simp at hm
    | false =>
      by_cases hb : boardFull (g.place y x) = true
      · exact ⟨fun h4 => Bool.false_ne_true (hiff.mpr h4), hfull.mp hb⟩
      · simp [hb] at hm
  · rintro ⟨h4, hgrid⟩
    have hb : b = false := by
      cases b with
      | false => rfl
      | true => exact absurd (hiff.mp rfl) h4
    rw [hres, hb]
    simp [hfull.mpr hgrid]
  · intro hgrid
    rw [hres]
    cases b <;> simp [hfull.mpr hgrid]
  · intro _ h4
    rw [hres, if_pos (hiff.mpr h4)]
    exact ⟨_, rfl⟩

/-- On `lastCellFree` the drop of B into column 6 fills the board without a
line of four: a tie. -/
theorem handleClick_tie_iff_full_witness :
    lastCellFree.shaped ∧ (0 : Int) ≤ 6 ∧ (6 : Int) < (lastCellFree.WIDTH : Int) ∧
      lastCellFree.vacant 0 6 ∧
      (handleClick sampleEnv lastCellFree 6).2 = .tie "Tie!" ∧
      ¬ (lastCellFree.place 0 6).hasFour playerB ∧ (lastCellFree.place 0 6).gridFull := by
  obtain ⟨y, hy, hiff, _⟩ :=
    handleClick_tie_iff_full sampleEnv lastCellFree (by decide) 6 (by decide) (by decide)
      ⟨0, by decide, by decide⟩
  have h0 : findSpotForCol lastCellFree 6 = .ok (some 0) := rfl
  rw [h0] at hy
  cases hy
  have hout : (handleClick sampleEnv lastCellFree 6).2 = .tie "Tie!" := by decide
  exact ⟨by decide, by decide, by decide, by decide, hout, hiff.mp ⟨_, hout⟩⟩

theorem findSpotForColLoop_row (g : Game) (x : Int) (y : Nat) :
    ∀ n, findSpotForColLoop g x n = .ok (some y) → ∃ row, g.board[y]? = some row := by
  intro n
  induction n with
  | zero => intro h; simp [findSpotForColLoop] at h
  | succ n ih =>
    intro h
    unfold findSpotForColLoop at h
    cases hb : g.board[n]? with
    | none => rw [hb] at h; cases h
    | some row =>
      rw [hb] at h
      by_cases ht : (row.get x).truthy = true
      · simp only [ht, Bool.not_true, Bool.false_eq_true, if_false] at h
        exact ih h
      · simp only [ht, Bool.not_false, if_true] at h
        simp only [Except.ok.injEq, Option.some.injEq] at h
        subst h
        exact ⟨row, hb⟩

/-- C7 fails as stated: a click with the column index 7 on a fresh 6 x 7 game
stores player A under key 7 of the bottom row, which grows to length 8; a click
with the index -1 stores A under key -1 of that row, and a click with the index
`2^32 - 1` stores A under that key (both are plain properties, the length stays
7). -/
theorem out_of_range_click_mutates :
    (freshGame.WIDTH : Int) ≤ 7 ∧
      freshGame.board.map Row.length = [7, 7, 7, 7, 7, 7] ∧
      (handleClick sampleEnv freshGame 7).1.board.map Row.length = [7, 7, 7, 7, 7, 8] ∧
      (handleClick sampleEnv freshGame 7).1.board ≠ freshGame.board ∧
      freshGame.slotAt 5 (-1) = some .hole ∧
      (handleClick sampleEnv freshGame (-1)).1.slotAt 5 (-1) = some (.piece playerA) ∧
      (handleClick sampleEnv freshGame (-1)).1.board ≠ freshGame.board ∧
      freshGame.slotAt 5 4294967295 = some .hole ∧
      (handleClick sampleEnv freshGame 4294967295).1.slotAt 5 4294967295 =
        some (.piece playerA) ∧
      (handleClick sampleEnv freshGame 4294967295).1.board.map Row.length =
        [7, 7, 7, 7, 7, 7] := by
  refine ⟨by decide, by decide, by decide, ?_, by decide, by decide, ?_, by decide,
    by decide, by decide⟩
  · intro h
    have h2 := congrArg (fun b => b.map Row.length) h
    revert h2
    decide
  · intro h
    have h2 := congrArg (fun b => (b[5]?).map (fun row => row.get (-1))) h
    revert h2
    decide

/-- C7 as amended: for every state and every column index `x` outside
`[0, WIDTH)`, the click reports no win, tie or switch of players (it is ignored
or ends in an error) and leaves `currPlayer`, the listener and every key other
than `x` of every row unchanged. When the column has no spot the state is
untouched. Otherwise the mover is stored under key `x` of the row `y` that
`findSpotForCol` returns; the length of that row becomes `x + 1` when
`length ≤ x ≤ 2^32 - 2` (an array index beyond the end) and stays as it is for
every other `x` (negative, or above `2^32 - 2`); the length of every other row
stays as it is. -/
theorem handleClick_out_of_range (env : Globals) (g : Game) (x : Int)
    (hout : x < 0 ∨ (g.WIDTH : Int) ≤ x) :
    ((handleClick env g x).2 = .ignored ∨ ∃ e, (handleClick env g x).2 = .threw e) ∧
      (handleClick env g x).1.currPlayer = g.currPlayer ∧
      (handleClick env g x).1.listening = g.listening ∧
      (∀ (y2 : Nat) (x2 : Int), x2 ≠ x →
        (handleClick env g x).1.slotAt y2 x2 = g.slotAt y2 x2) ∧
      (findSpotForCol g x = .ok none → handleClick env g x = (g, .ignored)) ∧
      (∀ y, findSpotForCol g x = .ok (some y) →
        (handleClick env g x).1.slotAt y x = some (.piece g.currPlayer) ∧
        ∀ (y2 : Nat) (row : Row), g.board[y2]? = some row →
          ∃ row2, (handleClick env g x).1.board[y2]? = some row2 ∧
            row2.length =
              if y2 = y ∧ (row.length : Int) ≤ x ∧ x ≤ 4294967294 then (x + 1).toNat
              else row.length) := by
  have hplace : ∀ y, placeInTable (g.place y x) y x = .error .typeError := by
    intro y
    unfold placeInTable
    rw [if_neg]
    intro h
    have h1 : (g.place y x).WIDTH = g.WIDTH := rfl
    rw [h1] at h
    omega
  have hkeys := handleClick_other_keys env g x
  rcases handleClick_paths env g x with ⟨e, hf, h⟩ | ⟨hf, h⟩ | ⟨y, hf, h2⟩
  · rw [h] at hkeys ⊢
    refine ⟨Or.inr ⟨e, rfl⟩, rfl, rfl, hkeys, ?_, ?_⟩
    · intro h0; rw [hf] at h0; cases h0
    · intro y0 h0; rw [hf] at h0; cases h0
  · rw [h] at hkeys ⊢
    refine ⟨Or.inl rfl, rfl, rfl, hkeys, fun _ => rfl, ?_⟩
    intro y0 h0; rw [hf] at h0; cases h0
  · rcases h2 with ⟨e, _, h⟩ | ⟨hp, _⟩
    · rw [h] at hkeys ⊢
      refine ⟨Or.inr ⟨e, rfl⟩, rfl, rfl, hkeys, ?_, ?_⟩
      · intro h0; rw [hf] at h0; cases h0
      · intro y0 h0
        rw [hf] at h0
        cases h0
        obtain ⟨row0, hrow0⟩ := findSpotForColLoop_row g x y g.HEIGHT hf
        constructor
        · show (g.place y x).slotAt y x = some (.piece g.currPlayer)
          rw [place_slotAt, if_pos ⟨rfl, rfl⟩]
          simp [Game.slotAt, hrow0]
        · intro y2 row hrow
          show ∃ row2, (setCell g.board y x (.piece g.currPlayer))[y2]? = some row2 ∧ _
          rw [setCell_getElem?]
          by_cases hy : y2 = y
          · subst hy
            rw [if_pos rfl, hrow]
            refine ⟨row.set x (.piece g.currPlayer), rfl, ?_⟩
            simp [Row.set, maxArrayIndex]
          · rw [if_neg hy, hrow]
            refine ⟨row, rfl, ?_⟩
            rw [if_neg (fun hc => hy hc.1)]
    · rw [hplace] at hp; cases hp

/-- On a fresh 6 x 7 game the click with index 7 ends in an error with A still to
move, A stored under key 7 of the bottom row, whose length becomes 8; with the
index `2^32 - 1` the bottom row keeps its length 7. -/
theorem handleClick_out_of_range_witness :
    ((7 : Int) < 0 ∨ (freshGame.WIDTH : Int) ≤ 7) ∧
      findSpotForCol freshGame 7 = .ok (some 5) ∧
      (handleClick sampleEnv freshGame 7).2 = .threw .typeError ∧
      (handleClick sampleEnv freshGame 7).1.currPlayer = freshGame.currPlayer ∧
      (handleClick sampleEnv freshGame 7).1.listening = freshGame.listening ∧
      (handleClick sampleEnv freshGame 7).1.slotAt 5 7 = some (.piece freshGame.currPlayer) ∧
      (∃ row2, (handleClick sampleEnv freshGame 7).1.board[5]? = some row2 ∧
        row2.length = 8) ∧
      (∃ row2, (handleClick sampleEnv freshGame 4294967295).1.board[5]? = some row2 ∧
        row2.length = 7) :=
  have h7 := handleClick_out_of_range sampleEnv freshGame 7 (by decide)
  have hbig := handleClick_out_of_range sampleEnv freshGame 4294967295 (by decide)
  ⟨by decide, rfl, by decide, h7.2.1, h7.2.2.1, (h7.2.2.2.2.2 5 rfl).1,
    (h7.2.2.2.2.2 5 rfl).2 5 (Row.fromLength 7) rfl,
    (hbig.2.2.2.2.2 5 rfl).2 5 (Row.fromLength 7) rfl⟩

theorem vacant_not_occupied (g : Game) (y : Nat) (x : Int) (h : g.vacant y x) :
    ¬ g.occupied y x := fun ho => occupied_not_vacant g y x ho h

theorem occupiedCells_place (g g2 : Game) (y : Nat) (x : Nat) (hH : g2.HEIGHT = g.HEIGHT)
    (hW : g2.WIDTH = g.WIDTH) (hb : g2.board = (g.place y (x : Int)).board)
    (hy : y < g.HEIGHT) (hx : x < g.WIDTH) (hv : g.vacant y (x : Int)) :
    g2.occupiedCells = insert (y, x) g.occupiedCells := by
  have hsome : ∃ s, g.slotAt y (x : Int) = some s := by
    unfold Game.vacant at hv
    cases hs : g.slotAt y (x : Int) with
    | none => rw [hs] at hv; cases hv
    | some s => exact ⟨s, rfl⟩
  obtain ⟨s, hs⟩ := hsome
  ext c
  obtain ⟨c1, c2⟩ := c
  simp only [Game.occupiedCells, Finset.mem_filter, Finset.mem_product, Finset.mem_range,
    Finset.mem_insert, Prod.mk.injEq, hH, hW]
  have hslot : g2.slotAt c1 (c2 : Int) =
      if c1 = y ∧ (c2 : Int) = (x : Int) then some (Slot.piece g.currPlayer)
      else g.slotAt c1 (c2 : Int) := by
    rw [slotAt_congr _ _ hb, place_slotAt, hs]
    rfl
  unfold Game.occupied
  rw [hslot]
  by_cases hc : c1 = y ∧ (c2 : Int) = (x : Int)
  · rw [if_pos hc]
    obtain ⟨h1, h2⟩ := hc
    have h3 : c2 = x := by exact_mod_cast h2
    subst h1
    subst h3
    simp [Slot.truthy, hy, hx]
  · rw [if_neg hc]
    have hne : ¬ (c1 = y ∧ c2 = x) := by
      rintro ⟨h1, h2⟩
      exact hc ⟨h1, by rw [h2]⟩
    simp [hne]

/-- C9: for every state with a `HEIGHT` x `WIDTH` board and every in-range column
`x` with an empty cell, `handleClick` changes exactly one board cell: the landing
cell `(findSpotForCol(x), x)`, empty before, holds the mover afterwards; every
other cell and every row length is unchanged, so no occupied cell is overwritten,
and the number of occupied cells grows by exactly one. -/
theorem handleClick_changes_one_cell (env : Globals) (g : Game) (hshape : g.shaped)
    (x : Int) (hx0 : 0 ≤ x) (hxW : x < (g.WIDTH : Int))
    (hfree : ∃ y, y < g.HEIGHT ∧ g.vacant y x) :
    ∃ y, findSpotForCol g x = .ok (some y) ∧ y < g.HEIGHT ∧ g.vacant y x ∧
      (handleClick env g x).1.slotAt y x = some (.piece g.currPlayer) ∧
      (∀ (y2 : Nat) (x2 : Int), (y2, x2) ≠ (y, x) →
        (handleClick env g x).1.slotAt y2 x2 = g.slotAt y2 x2) ∧
      (∀ (y2 : Nat) (x2 : Int), g.occupied y2 x2 →
        (handleClick env g x).1.slotAt y2 x2 = g.slotAt y2 x2) ∧
      (handleClick env g x).1.board.map Row.length = g.board.map Row.length ∧
      (handleClick env g x).1.occupiedCount = g.occupiedCount + 1 := by
  obtain ⟨y, hy, hyH, hv, _⟩ := spot_of_vacant g hshape.1 x hfree
  obtain ⟨hH, hW, hfr⟩ := handleClick_frame env g x
  have hb : (handleClick env g x).1.board = (g.place y x).board := by
    rcases hfr with ⟨hno, _⟩ | ⟨y1, hy1, hb1⟩
    · exact absurd hy (hno y)
    · rw [hy] at hy1; cases hy1; exact hb1
  have hother : ∀ (y2 : Nat) (x2 : Int), (y2, x2) ≠ (y, x) →
      (handleClick env g x).1.slotAt y2 x2 = g.slotAt y2 x2 := by
    intro y2 x2 hne
    rw [slotAt_congr _ _ hb, place_slotAt, if_neg]
    rintro ⟨h1, h2⟩
    exact hne (by rw [h1, h2])
  have hsome : ∃ s, g.slotAt y x = some s := by
    have := hv
    unfold Game.vacant at this
    cases hs : g.slotAt y x with
    | none => rw [hs] at this; cases this
    | some s => exact ⟨s, rfl⟩
  obtain ⟨s, hs⟩ := hsome
  refine ⟨y, hy, hyH, hv, ?_, hother, ?_, ?_, ?_⟩
  · rw [slotAt_congr _ _ hb, place_slotAt, if_pos ⟨rfl, rfl⟩, hs]
    rfl
  · intro y2 x2 hocc
    apply hother
    intro heq
    cases heq
    exact vacant_not_occupied g y x hv hocc
  · rw [hb]
    apply setCell_lengths
    intro row hmem
    rw [(hshape.2 row hmem).1]
    exact hxW
  · have hxn : ((x.toNat : Nat) : Int) = x := Int.toNat_of_nonneg hx0
    have hcells := occupiedCells_place g (handleClick env g x).1 y x.toNat hH hW
      (by rw [hxn]; exact hb) hyH (by omega) (by rw [hxn]; exact hv)
    unfold Game.occupiedCount
    rw [hcells, Finset.card_insert_of_not_mem]
    simp only [Game.occupiedCells, Finset.mem_filter, not_and]
    intro _
    rw [hxn]
    exact vacant_not_occupied g y x hv

/-- On `threeInRow` the drop into column 0 lands at `(3, 0)` and raises the
number of occupied cells from 6 to 7. -/
theorem handleClick_changes_one_cell_witness :
    threeInRow.shaped ∧ (0 : Int) ≤ 0 ∧ (0 : Int) < (threeInRow.WIDTH : Int) ∧
      threeInRow.vacant 3 0 ∧ threeInRow.occupiedCount = 6 ∧
      (handleClick sampleEnv threeInRow 0).1.occupiedCount = 7 := by
  obtain ⟨_, _, _, _, _, _, _, _, hcount⟩ :=
    handleClick_changes_one_cell sampleEnv threeInRow (by decide) 0 (by decide) (by decide)
      ⟨3, by decide, by decide⟩
  have h6 : threeInRow.occupiedCount = 6 := by decide
  rw [h6] at hcount
  exact ⟨by decide, by decide, by decide, by decide, h6, hcount⟩

/-! ## Stacks -/

theorem stacked_congr (g g2 : Game) (x : Int) (m : Nat) (hH : g2.HEIGHT = g.HEIGHT)
    (hb : g2.board = g.board) (h : g.stacked x m) : g2.stacked x m := by
  unfold Game.stacked Game.occupied Game.vacant at *
  simp only [slotAt_congr g g2 hb, hH, hb]
  exact h

theorem stacked_spot (g : Game) (x : Int) (m : Nat) (h : g.stacked x m) :
    findSpotForCol g x = .ok (if m < g.HEIGHT then some (g.HEIGHT - 1 - m) else none) := by
  obtain ⟨hrows, hm, hcol⟩ := h
  obtain ⟨r, hr, hsome, hnone⟩ := findSpotForCol_spec g hrows x
  rw [hr]
  cases r with
  | none =>
    have hall := hnone rfl
    by_cases hlt : m < g.HEIGHT
    · have hv := (hcol 0 (by omega)).2 (by omega)
      exact absurd hv (occupied_not_vacant g 0 x (hall 0 (by omega)))
    · rw [if_neg hlt]
  | some y =>
    obtain ⟨hy, hv, hbelow⟩ := hsome y rfl
    have h1 : y < g.HEIGHT - m := by
      by_contra hge
      exact occupied_not_vacant g y x ((hcol y hy).1 (by omega)) hv
    have h2 : ¬ (y + 1 < g.HEIGHT - m) := by
      intro hlt
      have hv2 := (hcol (y + 1) (by omega)).2 hlt
      exact occupied_not_vacant g (y + 1) x (hbelow (y + 1) (by omega) (by omega)) hv2
    have h3 : y = g.HEIGHT - 1 - m := by omega
    rw [if_pos (by omega), h3]

theorem stacked_place_same (g : Game) (x : Int) (m : Nat) (h : g.stacked x m)
    (hlt : m < g.HEIGHT) : (g.place (g.HEIGHT - 1 - m) x).stacked x (m + 1) := by
  obtain ⟨hrows, hm, hcol⟩ := h
  refine ⟨place_hasRows g _ x hrows, hlt, ?_⟩
  intro y hy
  have hH : (g.place (g.HEIGHT - 1 - m) x).HEIGHT = g.HEIGHT := rfl
  rw [hH] at hy ⊢
  unfold Game.occupied Game.vacant
  rw [place_slotAt]
  by_cases hyy : y = g.HEIGHT - 1 - m
  · rw [if_pos ⟨hyy, rfl⟩]
    have hv := (hcol (g.HEIGHT - 1 - m) (by omega)).2 (by omega)
    unfold Game.vacant at hv
    cases hs : g.slotAt (g.HEIGHT - 1 - m) x with
    | none => rw [hs] at hv; cases hv
    | some s =>
      constructor
      · intro _; rfl
      · intro hc; omega
  · rw [if_neg (fun hc => hyy hc.1)]
    constructor
    · intro hge; exact (hcol y hy).1 (by omega)
    · intro hl; exact (hcol y hy).2 (by omega)

theorem stacked_place_other (g : Game) (x c : Int) (m y : Nat) (h : g.stacked x m)
    (hne : c ≠ x) : (g.place y c).stacked x m := by
  obtain ⟨hrows, hm, hcol⟩ := h
  refine ⟨place_hasRows g _ c hrows, hm, ?_⟩
  intro y2 hy2
  have hslot : (g.place y c).slotAt y2 x = g.slotAt y2 x := by
    rw [place_slotAt, if_neg (fun hc => hne hc.2.symm)]
  unfold Game.occupied Game.vacant
  rw [hslot]
  exact hcol y2 hy2

/-- One click, seen from column `x` holding a stack of `m` pieces: either the
click is an accepted drop into `x`, which lands on top of the stack, or the stack
is as it was. -/
theorem click_stacked (env : Globals) (g : Game) (c x : Int) (m : Nat)
    (hst : g.stacked x m) (hx0 : 0 ≤ x) (hxW : x < (g.WIDTH : Int)) :
    (click env g c).1.HEIGHT = g.HEIGHT ∧ (click env g c).1.WIDTH = g.WIDTH ∧
      ((c = x ∧ (click env g c).2.accepted = true ∧ m < g.HEIGHT ∧
          findSpotForCol g c = .ok (some (g.HEIGHT - 1 - m)) ∧
          (click env g c).1.stacked x (m + 1)) ∨
        (¬ (c = x ∧ (click env g c).2.accepted = true) ∧
          (click env g c).1.stacked x m)) := by
  unfold click
  by_cases hl : g.listening = true
  swap
  · rw [if_neg hl]
    exact ⟨rfl, rfl, Or.inr ⟨fun h => by simp [Outcome.accepted] at h, hst⟩⟩
  rw [if_pos hl]
  obtain ⟨hH, hW, hfr⟩ := handleClick_frame env g c
  refine ⟨hH, hW, ?_⟩
  by_cases hc : c = x
  · subst hc
    have hspot := stacked_spot g c m hst
    by_cases hlt : m < g.HEIGHT
    · rw [if_pos hlt] at hspot
      obtain ⟨b, _, _, hres⟩ := handleClick_accept env g hst.1 c hx0 hxW _ hspot
      have hst2 := stacked_place_same g c m hst hlt
      refine Or.inl ⟨rfl, ?_, hlt, hspot, ?_⟩
      · rw [hres]
        cases b
        · by_cases hb : boardFull (g.place (g.HEIGHT - 1 - m) c) = true
          · simp [hb, Outcome.accepted]
          · simp [hb, Outcome.accepted]
        · simp [Outcome.accepted]
      · rcases hfr with ⟨hno, _⟩ | ⟨y1, hy1, hb1⟩
        · exact absurd hspot (hno _)
        · rw [hspot] at hy1
          cases hy1
          exact stacked_congr (g.place (g.HEIGHT - 1 - m) c) _ c (m + 1) hH hb1 hst2
    · rw [if_neg hlt] at hspot
      rcases hfr with ⟨_, hsame⟩ | ⟨y1, hy1, _⟩
      · refine Or.inr ⟨?_, by rw [hsame]; exact hst⟩
        rintro ⟨_, hacc⟩
        rcases handleClick_paths env g c with ⟨e, h1, _⟩ | ⟨_, h⟩ | ⟨y, h1, _⟩
        · rw [hspot] at h1; cases h1
        · rw [h] at hacc; simp [Outcome.accepted] at hacc
        · rw [hspot] at h1; cases h1
      · rw [hspot] at hy1; cases hy1
  · refine Or.inr ⟨fun h => hc h.1, ?_⟩
    rcases hfr with ⟨_, hsame⟩ | ⟨y1, _, hb1⟩
    · rw [hsame]; exact hst
    · exact stacked_congr (g.place y1 c) _ x m hH hb1 (stacked_place_other g x c m y1 hst hc)

theorem rowsInto_stacked (x : Int) (hx0 : 0 ≤ x) (cs : List (Globals × Int)) :
    ∀ (g : Game) (m : Nat), g.stacked x m → x < (g.WIDTH : Int) →
      ∃ k, m + k ≤ g.HEIGHT ∧
        rowsInto x g cs = (List.range k).map (fun i => g.HEIGHT - 1 - (m + i)) := by
  induction cs with
  | nil =>
    intro g m hst _
    exact ⟨0, hst.2.1, rfl⟩
  | cons head rest ih =>
    intro g m hst hxW
    obtain ⟨env, c⟩ := head
    obtain ⟨hH, hW, hstep⟩ := click_stacked env g c x m hst hx0 hxW
    rcases hstep with ⟨hc, hacc, hlt, hspot, hst2⟩ | ⟨hno, hst2⟩
    · obtain ⟨k, hk, hrest⟩ := ih (click env g c).1 (m + 1) hst2 (by rw [hW]; exact hxW)
      refine ⟨k + 1, by omega, ?_⟩
      have hrows : rowsInto x g ((env, c) :: rest) =
          (g.HEIGHT - 1 - m) :: rowsInto x (click env g c).1 rest := by
        simp only [rowsInto]
        rw [if_pos ⟨hc, hacc⟩, hspot]
      rw [hrows, hrest, hH, List.range_succ_eq_map, List.map_cons, List.map_map]
      congr 1
      apply List.map_congr_left
      intro i _
      simp only [Function.comp]
      omega
    · obtain ⟨k, hk, hrest⟩ := ih (click env g c).1 m hst2 (by rw [hW]; exact hxW)
      refine ⟨k, by omega, ?_⟩
      have hrows : rowsInto x g ((env, c) :: rest) = rowsInto x (click env g c).1 rest := by
        simp only [rowsInto]
        rw [if_neg hno]
      rw [hrows, hrest, hH]

/-- C10: starting from a board with `HEIGHT` rows whose column `x`
(`0 ≤ x < WIDTH`) is empty, during any sequence of clicks (on any columns, with
any globals) the `k`-th accepted drop into column `x` lands at row `HEIGHT - k`,
and there are at most `HEIGHT` accepted drops into `x`: a further one is
rejected. -/
theorem drops_into_column_descend (g : Game) (hrows : g.board.length = g.HEIGHT)
    (x : Int) (hx0 : 0 ≤ x) (hxW : x < (g.WIDTH : Int))
    (hempty : ∀ y, y < g.HEIGHT → g.vacant y x) (cs : List (Globals × Int)) :
    (rowsInto x g cs).length ≤ g.HEIGHT ∧
      ∀ k, 1 ≤ k → k ≤ (rowsInto x g cs).length →
        (rowsInto x g cs)[k - 1]? = some (g.HEIGHT - k) := by
  have hst : g.stacked x 0 :=
    ⟨hrows, Nat.zero_le _, fun y hy => ⟨fun h => by omega, fun _ => hempty y hy⟩⟩
  obtain ⟨n, hn, hlist⟩ := rowsInto_stacked x hx0 cs g 0 hst hxW
  rw [hlist]
  simp only [List.length_map, List.length_range]
  refine ⟨by omega, ?_⟩
  intro k h1 hk
  rw [List.getElem?_map, List.getElem?_range (by omega)]
  simp only [Option.map_some', Option.some.injEq]
  omega

/-- On a fresh 6 x 7 game, seven clicks on column 3 with clicks on the columns 0
and 6 in between: the six accepted drops land at the rows 5, 4, 3, 2, 1, 0 and
the seventh is ignored. -/
theorem drops_into_column_descend_witness :
    freshGame.board.length = freshGame.HEIGHT ∧ (0 : Int) ≤ 3 ∧
      (3 : Int) < (freshGame.WIDTH : Int) ∧
      (∀ y, y < freshGame.HEIGHT → freshGame.vacant y 3) ∧
      rowsInto 3 freshGame
          [(sampleEnv, 3), (sampleEnv, 0), (sampleEnv, 3), (sampleEnv, 3), (sampleEnv, 6),
            (sampleEnv, 3), (sampleEnv, 3), (sampleEnv, 3), (sampleEnv, 3)] =
        [5, 4, 3, 2, 1, 0] ∧
      (rowsInto 3 freshGame
          [(sampleEnv, 3), (sampleEnv, 0), (sampleEnv, 3), (sampleEnv, 3), (sampleEnv, 6),
            (sampleEnv, 3), (sampleEnv, 3), (sampleEnv, 3), (sampleEnv, 3)]).length ≤
        freshGame.HEIGHT :=
  ⟨rfl, by decide, by decide, by decide, by decide,
    (drops_into_column_descend freshGame rfl 3 (by decide) (by decide) (by decide)
      [(sampleEnv, 3), (sampleEnv, 0), (sampleEnv, 3), (sampleEnv, 3), (sampleEnv, 6),
        (sampleEnv, 3), (sampleEnv, 3), (sampleEnv, 3), (sampleEnv, 3)]).1⟩

/-! ## Construction -/

theorem makeBoard_getElem? (h w y : Nat) (hy : y < h) :
    (makeBoard h w)[y]? = some (Row.fromLength w) := by
  unfold makeBoard
  rw [List.getElem?_eq_getElem (by simp [hy])]
  simp

/-- What `new Game(y, x)` builds, for all dimensions. -/
theorem Game.new_spec (env : Globals) (y x : Nat) :
    (Game.new env y x).2.HEIGHT = y ∧ (Game.new env y x).2.WIDTH = x ∧
      (Game.new env y x).2.board.length = y ∧
      (∀ row ∈ (Game.new env y x).2.board, row.length = x) ∧
      (∀ r c : Nat, r < y → c < x → (Game.new env y x).2.slotAt r (c : Int) = some .undef) ∧
      (Game.new env y x).2.currPlayer = env.player1 ∧
      (Game.new env y x).2.listening = true ∧
      (Game.new env y x).2.gameNum = env.gameNum + 1 ∧
      (Game.new env y x).1.gameNum = env.gameNum + 1 := by
  refine ⟨rfl, rfl, by simp [Game.new, makeBoard], ?_, ?_, rfl, rfl, rfl, rfl⟩
  · intro row hmem
    simp only [Game.new, makeBoard] at hmem
    rw [List.eq_of_mem_replicate hmem]
    rfl
  · intro r c hr hc
    simp only [Game.new, Game.slotAt, makeBoard_getElem? y x r hr, Option.map_some',
      Row.fromLength]
    rw [if_pos ⟨by omega, by omega⟩]

theorem Game.new_shaped (env : Globals) (y x : Nat) : (Game.new env y x).2.shaped := by
  refine ⟨by simp [Game.new, makeBoard], ?_⟩
  intro row hmem
  simp only [Game.new, makeBoard] at hmem
  rw [List.eq_of_mem_replicate hmem]
  refine ⟨rfl, ?_⟩
  intro k hk
  simp only [Row.fromLength]
  have hk2 : k < x := hk
  rw [if_pos ⟨by omega, by omega⟩]
  simp

theorem Game.new_no_four (env : Globals) (y x : Nat) (p : Player) :
    ¬ (Game.new env y x).2.hasFour p := by
  rintro ⟨y0, x0, d, _, hk⟩
  obtain ⟨h1, h2, h3, h4, h5⟩ := hk 0 le_rfl (by norm_num)
  simp only [zero_mul, add_zero] at h1 h2 h3 h4 h5
  have hH : (Game.new env y x).2.HEIGHT = y := rfl
  have hW : (Game.new env y x).2.WIDTH = x := rfl
  rw [hH] at h2
  rw [hW] at h4
  have hx : ((x0.toNat : Nat) : Int) = x0 := Int.toNat_of_nonneg h3
  have := (Game.new_spec env y x).2.2.2.2.1 y0.toNat x0.toNat (by omega) (by omega)
  rw [hx, h5] at this
  cases this

theorem Game.new_in_progress (env : Globals) (y x : Nat) :
    checkForWin (Game.new env y x).2 = .ok false ∧
      (0 < y → 0 < x → boardFull (Game.new env y x).2 = false) := by
  constructor
  · obtain ⟨b, hb, hiff⟩ := checkForWin_spec (Game.new env y x).2 (Game.new_shaped env y x).1
    cases b with
    | false => exact hb
    | true => exact absurd (hiff.mp rfl) (Game.new_no_four env y x _)
  · intro hy hx
    cases hb : boardFull (Game.new env y x).2 with
    | false => rfl
    | true =>
      have hfull := (boardFull_iff _ (Game.new_shaped env y x)).mp hb
      have hocc := hfull 0 hy 0 hx
      have hslot := (Game.new_spec env y x).2.2.2.2.1 0 0 hy hx
      unfold Game.occupied at hocc
      rw [hslot] at hocc
      simp [Slot.truthy] at hocc

/-! ## Claims about construction -/

/-- C11: for every height >= 4 and width >= 4, `new Game(height, width)` yields a
board of exactly `height` rows, each of exactly `width` cells, all empty
(`undefined`), with `currPlayer` equal to the global `player1` and the game in
progress: the click listener is registered, the scan finds no win and the tie
test fails. -/
theorem new_game_empty_in_progress (env : Globals) (height width : Nat)
    (hh : 4 ≤ height) (hw : 4 ≤ width) :
    (Game.new env height width).2.board.length = height ∧
      (∀ row ∈ (Game.new env height width).2.board, row.length = width) ∧
      (∀ r c : Nat, r < height → c < width →
        (Game.new env height width).2.slotAt r (c : Int) = some .undef) ∧
      (Game.new env height width).2.currPlayer = env.player1 ∧
      (Game.new env height width).2.listening = true ∧
      checkForWin (Game.new env height width).2 = .ok false ∧
      boardFull (Game.new env height width).2 = false := by
  obtain ⟨_, _, h3, h4, h5, h6, h7, _, _⟩ := Game.new_spec env height width
  obtain ⟨h8, h9⟩ := Game.new_in_progress env height width
  exact ⟨h3, h4, h5, h6, h7, h8, h9 (by omega) (by omega)⟩

/-- The game `new Game(6, 7)` of `startGame`. -/
theorem new_game_empty_in_progress_witness :
    4 ≤ 6 ∧ 4 ≤ 7 ∧ (Game.new sampleEnv 6 7).2.board.length = 6 ∧
      (Game.new sampleEnv 6 7).2.currPlayer = playerA ∧
      (Game.new sampleEnv 6 7).2.listening = true ∧
      checkForWin (Game.new sampleEnv 6 7).2 = .ok false ∧
      boardFull (Game.new sampleEnv 6 7).2 = false :=
  have h := new_game_empty_in_progress sampleEnv 6 7 (by decide) (by decide)
  ⟨by decide, by decide, h.1, h.2.2.2.1, h.2.2.2.2.1, h.2.2.2.2.2.1, h.2.2.2.2.2.2⟩

/-- C12 fails as stated: `new Game(3, 2)` does not fail; it creates a game with
a 3 x 2 board, registers its click listener and advances the game counter. -/
theorem undersized_game_is_created :
    (3 < 4 ∨ 2 < 4) ∧ (Game.new sampleEnv 3 2).2.HEIGHT = 3 ∧
      (Game.new sampleEnv 3 2).2.WIDTH = 2 ∧
      (Game.new sampleEnv 3 2).2.board.map Row.length = [2, 2, 2] ∧
      (Game.new sampleEnv 3 2).2.listening = true ∧
      (Game.new sampleEnv 3 2).1.gameNum = sampleEnv.gameNum + 1 ∧
      (handleClick sampleEnv (Game.new sampleEnv 3 2).2 0).2 = .next := by
  decide

/-- C12 as amended: the constructor does not validate its dimensions; also for
`height < 4` or `width < 4`, `new Game(height, width)` creates a game in
progress with a board of `height` rows of `width` empty cells and `currPlayer`
equal to the global `player1`, and counts it as a new game. -/
theorem undersized_game_construction (env : Globals) (height width : Nat)
    (hsmall : height < 4 ∨ width < 4) :
    (Game.new env height width).2.HEIGHT = height ∧
      (Game.new env height width).2.WIDTH = width ∧
      (Game.new env height width).2.board.length = height ∧
      (∀ row ∈ (Game.new env height width).2.board, row.length = width) ∧
      (∀ r c : Nat, r < height → c < width →
        (Game.new env height width).2.slotAt r (c : Int) = some .undef) ∧
      (Game.new env height width).2.currPlayer = env.player1 ∧
      (Game.new env height width).2.listening = true ∧
      (Game.new env height width).1.gameNum = env.gameNum + 1 ∧
      checkForWin (Game.new env height width).2 = .ok false := by
  have _ := hsmall
  obtain ⟨h1, h2, h3, h4, h5, h6, h7, _, h9⟩ := Game.new_spec env height width
  exact ⟨h1, h2, h3, h4, h5, h6, h7, h9, (Game.new_in_progress env height width).1⟩

/-- The 3 x 2 game. -/
theorem undersized_game_construction_witness :
    (3 < 4 ∨ 2 < 4) ∧ (Game.new sampleEnv 3 2).2.board.length = 3 ∧
      (Game.new sampleEnv 3 2).2.listening = true :=
  have h := undersized_game_construction sampleEnv 3 2 (Or.inl (by decide))
  ⟨Or.inl (by decide), h.2.2.1, h.2.2.2.2.2.2.1⟩

/-! ## Several games -/

/-- C13 fails on the code: after a second `startGame`, a drop on game 1 sets its
`currPlayer` to the `Player2` object of the second start (identity 3), which is
neither of the two objects (identities 0 and 1) that were `player1` and
`player2` when game 1 was created. Two drops later the new "Player1" object
completes the bottom row `(5,0)..(5,3)` of game 1, whose other three cells hold
the old "Player1" object: the scan compares identities and reports no win. -/
theorem second_start_replaces_players_of_first_game :
    firstStart.2.currPlayer = firstStart.1.player1 ∧
      (click secondStart.1 firstStart.2 0).2 = .next ∧
      (click secondStart.1 firstStart.2 0).1.currPlayer = secondStart.1.player2 ∧
      (click secondStart.1 firstStart.2 0).1.currPlayer ≠ firstStart.1.player1 ∧
      (click secondStart.1 firstStart.2 0).1.currPlayer ≠ firstStart.1.player2 ∧
      (click firstStart.1 gameOneEarly 3).2 = .win "Player1 won game 1!" ∧
      gameOneLate.currPlayer = secondStart.1.player1 ∧
      (click secondStart.1 gameOneLate 3).2 = .next ∧
      (List.range 4).map (fun x : Nat =>
          ((click secondStart.1 gameOneLate 3).1.slotAt 5 (x : Int)).map
            (fun s => match s with
              | .piece p => p.name
              | _ => "")) =
        [some "Player1", some "Player1", some "Player1", some "Player1"] := by
  decide

/-! ## No line of four before the end -/

theorem holds_congr (g g2 : Game) (hH : g2.HEIGHT = g.HEIGHT) (hW : g2.WIDTH = g.WIDTH)
    (hb : g2.board = g.board) (p : Player) (y x : Int) : g2.holds p y x ↔ g.holds p y x := by
  unfold Game.holds
  rw [hH, hW, slotAt_congr g g2 hb]

theorem hasFour_congr (g g2 : Game) (hH : g2.HEIGHT = g.HEIGHT) (hW : g2.WIDTH = g.WIDTH)
    (hb : g2.board = g.board) (p : Player) : g2.hasFour p ↔ g.hasFour p := by
  unfold Game.hasFour
  simp only [holds_congr g g2 hH hW hb]

/-- A cell that holds `p` after the placement at `(y, x)` held `p` before, unless
it is the cell `(y, x)` itself. -/
theorem holds_of_place (g : Game) (p : Player) (y : Nat) (x : Int) (y2 x2 : Int)
    (h : (g.place y x).holds p y2 x2) (hne : ¬ (y2.toNat = y ∧ x2 = x)) :
    g.holds p y2 x2 := by
  obtain ⟨h1, h2, h3, h4, h5⟩ := h
  refine ⟨h1, h2, h3, h4, ?_⟩
  rw [place_slotAt, if_neg hne] at h5
  exact h5

theorem placed_cell_holds (g : Game) (p : Player) (y : Nat) (x : Int) (y2 x2 : Int)
    (h : (g.place y x).holds p y2 x2) (heq : y2.toNat = y ∧ x2 = x) :
    p = g.currPlayer ∧ y < g.HEIGHT ∧ 0 ≤ x ∧ x < (g.WIDTH : Int) := by
  obtain ⟨h1, h2, h3, h4, h5⟩ := h
  have hH : (g.place y x).HEIGHT = g.HEIGHT := rfl
  have hW : (g.place y x).WIDTH = g.WIDTH := rfl
  rw [hH] at h2
  rw [hW] at h4
  rw [place_slotAt, if_pos heq] at h5
  obtain ⟨hy, hx⟩ := heq
  refine ⟨?_, by omega, by rw [← hx]; exact h3, by rw [← hx]; exact h4⟩
  cases hs : g.slotAt y x with
  | none => rw [hs] at h5; cases h5
  | some s =>
    rw [hs] at h5
    simp only [Option.map_some', Option.some.injEq, Slot.piece.injEq] at h5
    exact h5.symm

/-- The placement gives no line of four to anyone but the mover. -/
theorem hasFour_place_other (g : Game) (p : Player) (y : Nat) (x : Int)
    (hne : p ≠ g.currPlayer) (h : (g.place y x).hasFour p) : g.hasFour p := by
  obtain ⟨y0, x0, d, hd, hk⟩ := h
  refine ⟨y0, x0, d, hd, fun k h0 h3 => ?_⟩
  apply holds_of_place g p y x _ _ (hk k h0 h3)
  intro heq
  exact hne (placed_cell_holds g p y x _ _ (hk k h0 h3) heq).1

/-- A placement outside the grid gives no line of four to anyone. -/
theorem hasFour_place_outside (g : Game) (p : Player) (y : Nat) (x : Int)
    (hout : ¬ (y < g.HEIGHT ∧ 0 ≤ x ∧ x < (g.WIDTH : Int)))
    (h : (g.place y x).hasFour p) : g.hasFour p := by
  obtain ⟨y0, x0, d, hd, hk⟩ := h
  refine ⟨y0, x0, d, hd, fun k h0 h3 => ?_⟩
  apply holds_of_place g p y x _ _ (hk k h0 h3)
  intro heq
  exact hout (placed_cell_holds g p y x _ _ (hk k h0 h3) heq).2

/-- Whatever a click does, it gives no line of four to anyone but the mover. -/
theorem click_no_four_other (env : Globals) (g : Game) (x : Int) (p : Player)
    (hne : p ≠ g.currPlayer) (hno : ¬ g.hasFour p) : ¬ (click env g x).1.hasFour p := by
  unfold click
  by_cases hl : g.listening = true
  swap
  · rw [if_neg hl]; exact hno
  rw [if_pos hl]
  obtain ⟨hH, hW, hfr⟩ := handleClick_frame env g x
  rcases hfr with ⟨_, hsame⟩ | ⟨y, _, hb⟩
  · rw [hsame]; exact hno
  · intro h4
    have := (hasFour_congr (g.place y x) _ hH hW hb p).mp h4
    exact hno (hasFour_place_other g p y x hne this)

/-- A click that reports neither a win nor a tie leaves a board on which nobody
has a line of four, if nobody had one before. -/
theorem click_no_four (env : Globals) (g : Game) (x : Int) (hrows : g.hasRows)
    (hno : ∀ p, ¬ g.hasFour p) (hopen : (click env g x).2.ended = false) :
    (click env g x).1.hasRows ∧ ∀ p, ¬ (click env g x).1.hasFour p := by
  have hrows2 : (click env g x).1.hasRows := by
    unfold click
    by_cases hl : g.listening = true
    swap
    · rw [if_neg hl]; exact hrows
    rw [if_pos hl]
    obtain ⟨hH, _, hfr⟩ := handleClick_frame env g x
    rcases hfr with ⟨_, hsame⟩ | ⟨y, _, hb⟩
    · rw [hsame]; exact hrows
    · unfold Game.hasRows
      rw [hb, hH]
      exact place_hasRows g y x hrows
  refine ⟨hrows2, ?_⟩
  intro p
  by_cases hp : p = g.currPlayer
  swap
  · exact click_no_four_other env g x p hp (hno p)
  subst hp
  unfold click at hopen ⊢
  by_cases hl : g.listening = true
  swap
  · rw [if_neg hl]; exact hno _
  rw [if_pos hl] at hopen ⊢
  rcases handleClick_paths env g x with ⟨e, _, h⟩ | ⟨_, h⟩ | ⟨y, _, h2⟩
  · rw [h]; exact hno _
  · rw [h]; exact hno _
  · rcases h2 with ⟨e, hp, h⟩ | ⟨_, h3⟩
    · rw [h]
      intro h4
      apply hno g.currPlayer
      apply hasFour_place_outside g _ y x _ h4
      intro hin
      have hin2 : y < (g.place y x).HEIGHT ∧ 0 ≤ x ∧ x < ((g.place y x).WIDTH : Int) := hin
      unfold placeInTable at hp
      rw [if_pos hin2] at hp
      cases hp
    · obtain ⟨b, hb, hiff⟩ := checkForWin_spec (g.place y x) (place_hasRows g y x hrows)
      rcases h3 with ⟨e, hw, _⟩ | ⟨_, h⟩ | ⟨_, _, h⟩ | ⟨hw, _, h⟩
      · rw [hb] at hw; cases hw
      · rw [h] at hopen; simp [Outcome.ended] at hopen
      · rw [h] at hopen; simp [Outcome.ended] at hopen
      · rw [h]
        rw [hb] at hw
        cases hw
        intro h4
        have h5 : (g.place y x).hasFour g.currPlayer :=
          (hasFour_congr (g.place y x) (switchPlayers env (g.place y x)) rfl rfl rfl _).mp h4
        exact Bool.false_ne_true (hiff.mpr h5)

theorem clicks_no_four (cs : List (Globals × Int)) :
    ∀ g : Game, g.hasRows → (∀ p, ¬ g.hasFour p) →
      (∀ o ∈ (clicks g cs).2, o.ended = false) →
      (clicks g cs).1.hasRows ∧ ∀ p, ¬ (clicks g cs).1.hasFour p := by
  induction cs with
  | nil => intro g hrows hno _; exact ⟨hrows, hno⟩
  | cons head rest ih =>
    intro g hrows hno hopen
    obtain ⟨env, x⟩ := head
    simp only [clicks] at hopen ⊢
    have h1 := click_no_four env g x hrows hno (hopen _ (List.mem_cons_self _ _))
    exact ih (click env g x).1 h1.1 h1.2 (fun o ho => hopen o (List.mem_cons_of_mem _ ho))

/-- C14: in every state reached from a freshly constructed game by clicks none
of which has reported a win or a tie, no player has four aligned cells on the
board; and whatever the next click does, it leaves no line of four of a player
other than the mover. -/
theorem no_four_while_in_progress (env : Globals) (height width : Nat)
    (cs : List (Globals × Int))
    (hopen : ∀ o ∈ (clicks (Game.new env height width).2 cs).2, o.ended = false) :
    (∀ p, ¬ (clicks (Game.new env height width).2 cs).1.hasFour p) ∧
      ∀ (env2 : Globals) (x : Int) (p : Player),
        p ≠ (clicks (Game.new env height width).2 cs).1.currPlayer →
        ¬ (click env2 (clicks (Game.new env height width).2 cs).1 x).1.hasFour p := by
  have h := clicks_no_four cs (Game.new env height width).2 (Game.new_shaped env height width).1
    (fun p => Game.new_no_four env height width p) hopen
  exact ⟨h.2, fun env2 x p hne => click_no_four_other env2 _ x p hne (h.2 p)⟩

/-- Three drops on a fresh 6 x 7 game: nobody has a line of four. -/
theorem no_four_while_in_progress_witness :
    (∀ o ∈ (clicks (Game.new sampleEnv 6 7).2
        [(sampleEnv, 3), (sampleEnv, 3), (sampleEnv, 0)]).2, o.ended = false) ∧
      ¬ (clicks (Game.new sampleEnv 6 7).2
        [(sampleEnv, 3), (sampleEnv, 3), (sampleEnv, 0)]).1.hasFour playerA ∧
      ¬ (clicks (Game.new sampleEnv 6 7).2
        [(sampleEnv, 3), (sampleEnv, 3), (sampleEnv, 0)]).1.hasFour playerB :=
  have h := (no_four_while_in_progress sampleEnv 6 7
    [(sampleEnv, 3), (sampleEnv, 3), (sampleEnv, 0)] (by decide)).1
  ⟨by decide, h playerA, h playerB⟩

/-! ## The scan and the localized check -/

theorem hasFour_of_through (g : Game) (p : Player) (y x : Int)
    (h : g.hasFourThrough p y x) : g.hasFour p := by
  obtain ⟨y0, x0, d, hd, hk, _⟩ := h
  exact ⟨y0, x0, d, hd, hk⟩

/-- C15: on every board with `HEIGHT` rows on which the current player `P` has
no four aligned cells, after setting any cell `(y, x)` to `P` the exhaustive
scan `checkForWin` returns normally and answers `true` if and only if some
in-bounds straight 4-cell line (horizontal, vertical, or either diagonal) that
contains `(y, x)` is entirely `P`. -/
theorem scan_iff_local_check (g : Game) (hrows : g.board.length = g.HEIGHT)
    (hno : ¬ g.hasFour g.currPlayer) (y : Nat) (x : Int) :
    ∃ b, checkForWin (g.place y x) = .ok b ∧
      (b = true ↔ (g.place y x).hasFourThrough g.currPlayer (y : Int) x) := by
  obtain ⟨b, hb, hiff⟩ := checkForWin_spec (g.place y x) (place_hasRows g y x hrows)
  refine ⟨b, hb, hiff.trans ⟨?_, hasFour_of_through _ _ _ _⟩⟩
  rintro ⟨y0, x0, d, hd, hk⟩
  by_cases hthrough : ∃ k : Int, 0 ≤ k ∧ k ≤ 3 ∧ y0 + k * d.1 = (y : Int) ∧ x0 + k * d.2 = x
  · exact ⟨y0, x0, d, hd, hk, hthrough⟩
  · exfalso
    apply hno
    refine ⟨y0, x0, d, hd, fun k h0 h3 => ?_⟩
    have hcell := hk k h0 h3
    apply holds_of_place g _ y x _ _ hcell
    rintro ⟨h1, h2⟩
    apply hthrough
    refine ⟨k, h0, h3, ?_, h2⟩
    have := hcell.1
    omega

/-- On `threeInRow`, where A has no line of four, setting `(5, 3)` to A makes
the scan answer `true`, and the line found passes through `(5, 3)`. -/
theorem scan_iff_local_check_witness :
    threeInRow.board.length = threeInRow.HEIGHT ∧ ¬ threeInRow.hasFour threeInRow.currPlayer ∧
      checkForWin (threeInRow.place 5 3) = .ok true ∧
      (threeInRow.place 5 3).hasFourThrough playerA 5 3 := by
  have hno : ¬ threeInRow.hasFour threeInRow.currPlayer := by
    obtain ⟨b, hb, hiff⟩ := checkForWin_spec threeInRow rfl
    have hfalse : checkForWin threeInRow = .ok false := rfl
    rw [hfalse] at hb
    cases hb
    exact fun h => Bool.false_ne_true (hiff.mpr h)
  obtain ⟨b, hb, hiff⟩ := scan_iff_local_check threeInRow rfl hno 5 3
  have htrue : checkForWin (threeInRow.place 5 3) = .ok true := rfl
  rw [htrue] at hb
  cases hb
  exact ⟨rfl, hno, rfl, hiff.mp rfl⟩

/-! ## No floating pieces -/

theorem clicks_stacked (x : Int) (hx0 : 0 ≤ x) (cs : List (Globals × Int)) :
    ∀ (g : Game) (m : Nat), g.stacked x m → x < (g.WIDTH : Int) →
      (clicks g cs).1.HEIGHT = g.HEIGHT ∧ ∃ m2, (clicks g cs).1.stacked x m2 := by
  induction cs with
  | nil => intro g m hst _; exact ⟨rfl, m, hst⟩
  | cons head rest ih =>
    intro g m hst hxW
    obtain ⟨env, c⟩ := head
    obtain ⟨hH, hW, hstep⟩ := click_stacked env g c x m hst hx0 hxW
    simp only [clicks]
    rcases hstep with ⟨_, _, _, _, hst2⟩ | ⟨_, hst2⟩
    · obtain ⟨h1, h2⟩ := ih (click env g c).1 (m + 1) hst2 (by rw [hW]; exact hxW)
      exact ⟨h1.trans hH, h2⟩
    · obtain ⟨h1, h2⟩ := ih (click env g c).1 m hst2 (by rw [hW]; exact hxW)
      exact ⟨h1.trans hH, h2⟩

theorem Game.new_stacked (env : Globals) (height width : Nat) (x : Int) (hx0 : 0 ≤ x)
    (hxW : x < (width : Int)) : (Game.new env height width).2.stacked x 0 := by
  refine ⟨(Game.new_shaped env height width).1, Nat.zero_le _, ?_⟩
  intro y hy
  have hH : (Game.new env height width).2.HEIGHT = height := rfl
  rw [hH] at hy ⊢
  refine ⟨fun h => by omega, fun _ => ?_⟩
  have hx : ((x.toNat : Nat) : Int) = x := Int.toNat_of_nonneg hx0
  have := (Game.new_spec env height width).2.2.2.2.1 y x.toNat hy (by omega)
  rw [hx] at this
  unfold Game.vacant
  rw [this]
  rfl

theorem stacked_no_gap (g : Game) (x : Int) (m : Nat) (h : g.stacked x m) (y : Nat)
    (hy : y + 1 < g.HEIGHT) (hocc : g.occupied y x) : g.occupied (y + 1) x := by
  obtain ⟨_, _, hcol⟩ := h
  have h1 : ¬ (y < g.HEIGHT - m) := fun hlt =>
    occupied_not_vacant g y x hocc ((hcol y (by omega)).2 hlt)
  exact (hcol (y + 1) hy).1 (by omega)

/-- C16: in every state reached from a freshly constructed game by clicks, for
every column `x` of the grid the occupied cells form one stack resting on the
bottom row: for every row `y < HEIGHT - 1`, if cell `(y, x)` is occupied then
cell `(y + 1, x)` is occupied. -/
theorem no_floating_pieces (env : Globals) (height width : Nat) (cs : List (Globals × Int))
    (x : Int) (hx0 : 0 ≤ x) (hxW : x < (width : Int)) :
    (∃ m, (clicks (Game.new env height width).2 cs).1.stacked x m) ∧
      ∀ y : Nat, y + 1 < height →
        (clicks (Game.new env height width).2 cs).1.occupied y x →
        (clicks (Game.new env height width).2 cs).1.occupied (y + 1) x := by
  obtain ⟨hH, m, hst⟩ := clicks_stacked x hx0 cs (Game.new env height width).2 0
    (Game.new_stacked env height width x hx0 hxW) hxW
  refine ⟨⟨m, hst⟩, ?_⟩
  intro y hy hocc
  apply stacked_no_gap _ x m hst y _ hocc
  rw [hH]
  exact hy

/-- Three drops into column 3 and one into column 0 of a fresh 6 x 7 game: the
cell `(3, 3)` is occupied, and so is `(4, 3)` below it. -/
theorem no_floating_pieces_witness :
    (0 : Int) ≤ 3 ∧ (3 : Int) < ((7 : Nat) : Int) ∧
      (clicks (Game.new sampleEnv 6 7).2
        [(sampleEnv, 3), (sampleEnv, 3), (sampleEnv, 0), (sampleEnv, 3)]).1.occupied 3 3 ∧
      (clicks (Game.new sampleEnv 6 7).2
        [(sampleEnv, 3), (sampleEnv, 3), (sampleEnv, 0), (sampleEnv, 3)]).1.occupied 4 3 :=
  ⟨by decide, by decide, by decide,
    (no_floating_pieces sampleEnv 6 7
      [(sampleEnv, 3), (sampleEnv, 3), (sampleEnv, 0), (sampleEnv, 3)] 3 (by decide)
      (by decide)).2 3 (by decide) (by decide)⟩

/-! ## Piece counts -/

theorem vacant_slot (g : Game) (y : Nat) (x : Int) (hv : g.vacant y x) :
    ∃ s, g.slotAt y x = some s ∧ s.truthy = false := by
  unfold Game.vacant at hv
  cases hs : g.slotAt y x with
  | none => rw [hs] at hv; cases hv
  | some s =>
    rw [hs] at hv
    exact ⟨s, rfl, by simpa using hv⟩

theorem cellsOf_place_outside (g g2 : Game) (y : Nat) (x : Int) (hH : g2.HEIGHT = g.HEIGHT)
    (hW : g2.WIDTH = g.WIDTH) (hb : g2.board = (g.place y x).board)
    (hout : ¬ (y < g.HEIGHT ∧ 0 ≤ x ∧ x < (g.WIDTH : Int))) (q : Player) :
    g2.cellsOf q = g.cellsOf q := by
  ext c
  obtain ⟨c1, c2⟩ := c
  simp only [Game.cellsOf, Finset.mem_filter, Finset.mem_product, Finset.mem_range, hH, hW]
  constructor
  · rintro ⟨⟨h1, h2⟩, h3⟩
    refine ⟨⟨h1, h2⟩, ?_⟩
    rw [slotAt_congr _ _ hb, place_slotAt, if_neg] at h3
    · exact h3
    · rintro ⟨e1, e2⟩
      apply hout
      subst e1
      exact ⟨h1, by omega, by omega⟩
  · rintro ⟨⟨h1, h2⟩, h3⟩
    refine ⟨⟨h1, h2⟩, ?_⟩
    rw [slotAt_congr _ _ hb, place_slotAt, if_neg]
    · exact h3
    · rintro ⟨e1, e2⟩
      apply hout
      subst e1
      exact ⟨h1, by omega, by omega⟩

theorem cellsOf_place_ne (g g2 : Game) (y : Nat) (x : Int) (hH : g2.HEIGHT = g.HEIGHT)
    (hW : g2.WIDTH = g.WIDTH) (hb : g2.board = (g.place y x).board)
    (hv : g.vacant y x) (q : Player) (hq : q ≠ g.currPlayer) :
    g2.cellsOf q = g.cellsOf q := by
  obtain ⟨s, hs, hfalse⟩ := vacant_slot g y x hv
  ext c
  obtain ⟨c1, c2⟩ := c
  simp only [Game.cellsOf, Finset.mem_filter, Finset.mem_product, Finset.mem_range, hH, hW]
  rw [slotAt_congr _ _ hb, place_slotAt]
  by_cases hc : c1 = y ∧ (c2 : Int) = x
  · rw [if_pos hc, hs]
    obtain ⟨e1, e2⟩ := hc
    subst e1
    rw [e2, hs]
    constructor
    · rintro ⟨_, h3⟩
      simp only [Option.map_some', Option.some.injEq, Slot.piece.injEq] at h3
      exact absurd h3.symm hq
    · rintro ⟨_, h3⟩
      simp only [Option.some.injEq] at h3
      rw [h3] at hfalse
      simp [Slot.truthy] at hfalse
  · rw [if_neg hc]

theorem cellsOf_place_cur (g g2 : Game) (y x : Nat) (hH : g2.HEIGHT = g.HEIGHT)
    (hW : g2.WIDTH = g.WIDTH) (hb : g2.board = (g.place y (x : Int)).board)
    (hy : y < g.HEIGHT) (hx : x < g.WIDTH) (hv : g.vacant y (x : Int)) :
    g2.cellsOf g.currPlayer = insert (y, x) (g.cellsOf g.currPlayer) ∧
      (y, x) ∉ g.cellsOf g.currPlayer := by
  obtain ⟨s, hs, hfalse⟩ := vacant_slot g y x hv
  constructor
  · ext c
    obtain ⟨c1, c2⟩ := c
    simp only [Game.cellsOf, Finset.mem_filter, Finset.mem_product, Finset.mem_range,
      Finset.mem_insert, Prod.mk.injEq, hH, hW]
    rw [slotAt_congr _ _ hb, place_slotAt]
    by_cases hc : c1 = y ∧ (c2 : Int) = (x : Int)
    · rw [if_pos hc, hs]
      obtain ⟨e1, e2⟩ := hc
      have e3 : c2 = x := by exact_mod_cast e2
      subst e1
      subst e3
      simp [hy, hx]
    · rw [if_neg hc]
      have hne : ¬ (c1 = y ∧ c2 = x) := by
        rintro ⟨e1, e2⟩
        exact hc ⟨e1, by rw [e2]⟩
      simp [hne]
  · simp only [Game.cellsOf, Finset.mem_filter, not_and]
    intro _ h3
    rw [hs] at h3
    simp only [Option.some.injEq] at h3
    rw [h3] at hfalse
    simp [Slot.truthy] at hfalse

/-- The turn invariant of one game played with the globals `env`. -/
theorem click_counts (env : Globals) (g : Game) (x : Int) (hrows : g.hasRows)
    (hn1 : env.player1.name = "Player1") (hn2 : env.player2.name = "Player2")
    (hinv : (g.currPlayer = env.player1 ∧ g.countOf env.player1 = g.countOf env.player2) ∨
      (g.currPlayer = env.player2 ∧ g.countOf env.player1 = g.countOf env.player2 + 1))
    (hopen : (click env g x).2.ended = false) :
    (click env g x).1.hasRows ∧
      (((click env g x).1.currPlayer = env.player1 ∧
          (click env g x).1.countOf env.player1 = (click env g x).1.countOf env.player2) ∨
        ((click env g x).1.currPlayer = env.player2 ∧
          (click env g x).1.countOf env.player1 =
            (click env g x).1.countOf env.player2 + 1)) := by
  have hne : env.player1 ≠ env.player2 := by
    intro h
    have h2 : env.player1.name = env.player2.name := by rw [h]
    rw [hn1, hn2] at h2
    revert h2
    decide
  unfold click at hopen ⊢
  by_cases hl : g.listening = true
  swap
  · rw [if_neg hl]; exact ⟨hrows, hinv⟩
  rw [if_pos hl] at hopen ⊢
  rcases handleClick_paths env g x with ⟨e, _, h⟩ | ⟨_, h⟩ | ⟨y, hf, h2⟩
  · rw [h]; exact ⟨hrows, hinv⟩
  · rw [h]; exact ⟨hrows, hinv⟩
  obtain ⟨hyH, hv⟩ : y < g.HEIGHT ∧ g.vacant y x := by
    obtain ⟨r, hr, hsome, _⟩ := findSpotForCol_spec g hrows x
    rw [hf] at hr
    cases hr
    exact ⟨(hsome y rfl).1, (hsome y rfl).2.1⟩
  have hrows1 := place_hasRows g y x hrows
  rcases h2 with ⟨e, hp, h⟩ | ⟨hp, h3⟩
  · rw [h]
    refine ⟨hrows1, ?_⟩
    have hout : ¬ (y < g.HEIGHT ∧ 0 ≤ x ∧ x < (g.WIDTH : Int)) := by
      intro hin
      have hin2 : y < (g.place y x).HEIGHT ∧ 0 ≤ x ∧ x < ((g.place y x).WIDTH : Int) := hin
      unfold placeInTable at hp
      rw [if_pos hin2] at hp
      cases hp
    have hc : ∀ q, (g.place y x).countOf q = g.countOf q := fun q => by
      unfold Game.countOf
      rw [cellsOf_place_outside g (g.place y x) y x rfl rfl rfl hout q]
    simp only [hc]
    exact hinv
  · have hin : y < g.HEIGHT ∧ 0 ≤ x ∧ x < (g.WIDTH : Int) := by
      by_contra hout
      have hout2 : ¬ (y < (g.place y x).HEIGHT ∧ 0 ≤ x ∧ x < ((g.place y x).WIDTH : Int)) :=
        hout
      unfold placeInTable at hp
      rw [if_neg hout2] at hp
      cases hp
    obtain ⟨b, hb, _⟩ := checkForWin_spec (g.place y x) hrows1
    rcases h3 with ⟨e, hw, _⟩ | ⟨_, h⟩ | ⟨_, _, h⟩ | ⟨_, _, h⟩
    · rw [hb] at hw; cases hw
    · rw [h] at hopen; simp [Outcome.ended] at hopen
    · rw [h] at hopen; simp [Outcome.ended] at hopen
    · rw [h]
      refine ⟨hrows1, ?_⟩
      have hxn : ((x.toNat : Nat) : Int) = x := Int.toNat_of_nonneg hin.2.1
      have hcur := cellsOf_place_cur g (switchPlayers env (g.place y x)) y x.toNat rfl rfl
        (by rw [hxn]; rfl) hyH (by omega) (by rw [hxn]; exact hv)
      have hoth := cellsOf_place_ne g (switchPlayers env (g.place y x)) y x rfl rfl rfl hv
      have hturn : (switchPlayers env (g.place y x)).currPlayer =
          if g.currPlayer.name = "Player1" then env.player2 else env.player1 := rfl
      rcases hinv with ⟨hc, hcount⟩ | ⟨hc, hcount⟩
      · right
        rw [hturn, hc, if_pos hn1]
        refine ⟨rfl, ?_⟩
        unfold Game.countOf at hcount ⊢
        rw [hc] at hcur hoth
        rw [hcur.1, Finset.card_insert_of_not_mem hcur.2, hoth env.player2 (Ne.symm hne),
          hcount]
      · left
        rw [hturn, hc, hn2, if_neg (by decide)]
        refine ⟨rfl, ?_⟩
        unfold Game.countOf at hcount ⊢
        rw [hc] at hcur hoth
        rw [hcur.1, Finset.card_insert_of_not_mem hcur.2, hoth env.player1 hne, hcount]

theorem clicks_counts (env : Globals) (hn1 : env.player1.name = "Player1")
    (hn2 : env.player2.name = "Player2") (xs : List Int) :
    ∀ g : Game, g.hasRows →
      ((g.currPlayer = env.player1 ∧ g.countOf env.player1 = g.countOf env.player2) ∨
        (g.currPlayer = env.player2 ∧ g.countOf env.player1 = g.countOf env.player2 + 1)) →
      (∀ o ∈ (clicks g (xs.map (fun x => (env, x)))).2, o.ended = false) →
      (((clicks g (xs.map (fun x => (env, x)))).1.currPlayer = env.player1 ∧
          (clicks g (xs.map (fun x => (env, x)))).1.countOf env.player1 =
            (clicks g (xs.map (fun x => (env, x)))).1.countOf env.player2) ∨
        ((clicks g (xs.map (fun x => (env, x)))).1.currPlayer = env.player2 ∧
          (clicks g (xs.map (fun x => (env, x)))).1.countOf env.player1 =
            (clicks g (xs.map (fun x => (env, x)))).1.countOf env.player2 + 1)) := by
  induction xs with
  | nil => intro g _ hinv _; exact hinv
  | cons x rest ih =>
    intro g hrows hinv hopen
    simp only [List.map_cons, clicks] at hopen ⊢
    have h1 := click_counts env g x hrows hn1 hn2 hinv (hopen _ (List.mem_cons_self _ _))
    exact ih (click env g x).1 h1.1 h1.2 (fun o ho => hopen o (List.mem_cons_of_mem _ ho))

theorem Game.new_countOf (env : Globals) (height width : Nat) (p : Player) :
    (Game.new env height width).2.countOf p = 0 := by
  unfold Game.countOf
  rw [Finset.card_eq_zero, Finset.eq_empty_iff_forall_not_mem]
  intro c
  obtain ⟨c1, c2⟩ := c
  simp only [Game.cellsOf, Finset.mem_filter, Finset.mem_product, Finset.mem_range, not_and]
  rintro ⟨h1, h2⟩ h3
  have hH : (Game.new env height width).2.HEIGHT = height := rfl
  have hW : (Game.new env height width).2.WIDTH = width := rfl
  rw [hH] at h1
  rw [hW] at h2
  rw [(Game.new_spec env height width).2.2.2.2.1 c1 c2 h1 h2] at h3
  cases h3

/-- C17: in every state of a single game (a freshly constructed game followed by
clicks, the globals `player1` and `player2` being the two players `startGame`
made, named "Player1" and "Player2") in which no win or tie has been reported,
`currPlayer` is one of the two players, and the number of `player1` cells minus
the number of `player2` cells is 0 when `currPlayer` is `player1` and 1 when
`currPlayer` is `player2`. -/
theorem counts_track_turn (env : Globals) (height width : Nat)
    (hn1 : env.player1.name = "Player1") (hn2 : env.player2.name = "Player2")
    (xs : List Int) (hopen : ∀ o ∈ (singleGame env height width xs).2, o.ended = false) :
    ((singleGame env height width xs).1.currPlayer = env.player1 ∨
        (singleGame env height width xs).1.currPlayer = env.player2) ∧
      ((singleGame env height width xs).1.currPlayer = env.player1 →
        (singleGame env height width xs).1.countOf env.player1 =
          (singleGame env height width xs).1.countOf env.player2) ∧
      ((singleGame env height width xs).1.currPlayer = env.player2 →
        (singleGame env height width xs).1.countOf env.player1 =
          (singleGame env height width xs).1.countOf env.player2 + 1) := by
  have hne : env.player1 ≠ env.player2 := by
    intro h
    have h2 : env.player1.name = env.player2.name := by rw [h]
    rw [hn1, hn2] at h2
    revert h2
    decide
  have hinv := clicks_counts (Game.new env height width).1 hn1 hn2 xs
    (Game.new env height width).2 (Game.new_shaped env height width).1
    (Or.inl ⟨rfl, by
      rw [Game.new_countOf, Game.new_countOf]⟩) hopen
  have hp1 : (Game.new env height width).1.player1 = env.player1 := rfl
  have hp2 : (Game.new env height width).1.player2 = env.player2 := rfl
  rw [hp1, hp2] at hinv
  unfold singleGame
  rcases hinv with ⟨hc, hcount⟩ | ⟨hc, hcount⟩
  · exact ⟨Or.inl hc, fun _ => hcount, fun h => absurd (hc.symm.trans h) hne⟩
  · exact ⟨Or.inr hc, fun h => absurd (h.symm.trans hc) hne, fun _ => hcount⟩

/-- Three drops on a fresh 6 x 7 game: B is to move, A has two cells and B has
one. -/
theorem counts_track_turn_witness :
    sampleEnv.player1.name = "Player1" ∧ sampleEnv.player2.name = "Player2" ∧
      (∀ o ∈ (singleGame sampleEnv 6 7 [3, 3, 0]).2, o.ended = false) ∧
      (singleGame sampleEnv 6 7 [3, 3, 0]).1.currPlayer = playerB ∧
      (singleGame sampleEnv 6 7 [3, 3, 0]).1.countOf playerA =
        (singleGame sampleEnv 6 7 [3, 3, 0]).1.countOf playerB + 1 :=
  ⟨rfl, rfl, by decide, by decide,
    (counts_track_turn sampleEnv 6 7 rfl rfl [3, 3, 0] (by decide)).2.2 (by decide)⟩

/-! ## The reads of the scan -/

theorem everyLog_fst {α : Type} (f : α → Except JSError Bool × List ScanEvent) (l : List α) :
    (everyLog f l).1 = everyE (fun a => (f a).1) l := by
  induction l with
  | nil => rfl
  | cons a as ih =>
    simp only [everyLog, everyE]
    cases h : (f a).1 with
    | error e => rfl
    | ok b => cases b <;> simp [ih]

theorem anyLog_fst {α : Type} (f : α → Except JSError Bool × List ScanEvent) (l : List α) :
    (anyLog f l).1 = anyE (fun a => (f a).1) l := by
  induction l with
  | nil => rfl
  | cons a as ih =>
    simp only [anyLog, anyE]
    cases h : (f a).1 with
    | error e => rfl
    | ok b => cases b <;> simp [ih]

theorem winCellLog_fst (g : Game) (c : Int × Int) : (winCellLog g c).1 = winCell g c := by
  unfold winCellLog winCell
  split <;> rfl

/-- The recorded scan computes what the scan computes. -/
theorem checkForWinLog_fst (g : Game) : (checkForWinLog g).1 = checkForWin g := by
  unfold checkForWinLog checkForWin
  rw [anyLog_fst]
  congr 1
  funext y
  rw [anyLog_fst]
  congr 1
  funext x
  rw [anyLog_fst]
  congr 1
  funext cells
  show (everyLog (winCellLog g) cells).1 = everyE (winCell g) cells
  rw [everyLog_fst]
  congr 1
  funext c
  exact winCellLog_fst g c

theorem everyLog_events {α : Type} (f : α → Except JSError Bool × List ScanEvent)
    (P : ScanEvent → Prop) (l : List α) (h : ∀ a ∈ l, ∀ e ∈ (f a).2, P e) :
    ∀ e ∈ (everyLog f l).2, P e := by
  induction l with
  | nil => intro e he; cases he
  | cons a as ih =>
    have ha := h a (List.mem_cons_self a as)
    have ih2 := ih (fun c hc => h c (List.mem_cons_of_mem a hc))
    intro e he
    simp only [everyLog] at he
    cases hfa : (f a).1 with
    | error err => rw [hfa] at he; exact ha e he
    | ok b =>
      rw [hfa] at he
      cases b with
      | false => exact ha e he
      | true =>
        rcases List.mem_append.mp he with h1 | h1
        · exact ha e h1
        · exact ih2 e h1

theorem anyLog_events {α : Type} (f : α → Except JSError Bool × List ScanEvent)
    (P : ScanEvent → Prop) (l : List α) (h : ∀ a ∈ l, ∀ e ∈ (f a).2, P e) :
    ∀ e ∈ (anyLog f l).2, P e := by
  induction l with
  | nil => intro e he; cases he
  | cons a as ih =>
    have ha := h a (List.mem_cons_self a as)
    have ih2 := ih (fun c hc => h c (List.mem_cons_of_mem a hc))
    intro e he
    simp only [anyLog] at he
    cases hfa : (f a).1 with
    | error err => rw [hfa] at he; exact ha e he
    | ok b =>
      rw [hfa] at he
      cases b with
      | true => exact ha e he
      | false =>
        rcases List.mem_append.mp he with h1 | h1
        · exact ha e h1
        · exact ih2 e h1

theorem anyLog_lines {α : Type} (f : α → Except JSError Bool × List ScanEvent) (n : Nat)
    (l : List α) (h : ∀ a ∈ l, (f a).2.countP ScanEvent.isLine ≤ n) :
    (anyLog f l).2.countP ScanEvent.isLine ≤ l.length * n := by
  induction l with
  | nil => simp [anyLog]
  | cons a as ih =>
    have ha := h a (List.mem_cons_self a as)
    have ih2 := ih (fun c hc => h c (List.mem_cons_of_mem a hc))
    have hlen : (a :: as).length * n = as.length * n + n := by
      rw [List.length_cons, Nat.succ_mul]
    simp only [anyLog]
    cases hfa : (f a).1 with
    | error err => simp only; omega
    | ok b =>
      cases b with
      | true => simp only; omega
      | false =>
        simp only [List.countP_append]
        omega

theorem everyLog_winCell_lines (g : Game) (cells : List (Int × Int)) :
    (everyLog (winCellLog g) cells).2.countP ScanEvent.isLine = 0 := by
  rw [List.countP_eq_zero]
  apply everyLog_events (winCellLog g) (fun e => ¬ e.isLine = true)
  intro c _ e he
  unfold winCellLog at he
  split at he
  · simp only [List.mem_singleton] at he
    rw [he]
    simp [ScanEvent.isLine]
  · cases he

theorem _winLog_reads (g : Game) (cells : List (Int × Int)) :
    ∀ e ∈ (_winLog g cells).2, ∀ y x : Int, e = .read y x →
      0 ≤ y ∧ y < (g.HEIGHT : Int) ∧ 0 ≤ x ∧ x < (g.WIDTH : Int) := by
  intro e he
  simp only [_winLog, List.mem_cons] at he
  rcases he with rfl | he
  · intro y x h; cases h
  · revert e
    apply everyLog_events (winCellLog g)
    intro c _ e he y x hyx
    unfold winCellLog at he
    split at he
    · rename_i hin
      simp only [List.mem_singleton] at he
      rw [he] at hyx
      cases hyx
      exact hin
    · cases he

theorem _winLog_lines (g : Game) (cells : List (Int × Int)) :
    (_winLog g cells).2.countP ScanEvent.isLine ≤ 1 := by
  simp only [_winLog, List.countP_cons, everyLog_winCell_lines, ScanEvent.isLine]
  simp

/-- C18: for every `HEIGHT` and `WIDTH` and every board, whatever its shape, each
indexing `board[y][x]` made by `checkForWin` satisfies `0 ≤ y < HEIGHT` and
`0 ≤ x < WIDTH`, the bounds tests being evaluated before the cell is read; and
the scan ends after at most `HEIGHT * WIDTH * 4` candidate lines (calls of
`_win`). The recorded scan returns what `checkForWin` returns. -/
theorem scan_stays_inside_grid (g : Game) :
    (checkForWinLog g).1 = checkForWin g ∧
      (∀ y x : Int, ScanEvent.read y x ∈ (checkForWinLog g).2 →
        0 ≤ y ∧ y < (g.HEIGHT : Int) ∧ 0 ≤ x ∧ x < (g.WIDTH : Int)) ∧
      (checkForWinLog g).2.countP ScanEvent.isLine ≤ g.HEIGHT * g.WIDTH * 4 := by
  refine ⟨checkForWinLog_fst g, ?_, ?_⟩
  · intro y x hmem
    have hall : ∀ e ∈ (checkForWinLog g).2, ∀ y x : Int, e = .read y x →
        0 ≤ y ∧ y < (g.HEIGHT : Int) ∧ 0 ≤ x ∧ x < (g.WIDTH : Int) := by
      unfold checkForWinLog
      apply anyLog_events
      intro r _
      apply anyLog_events
      intro c _
      apply anyLog_events
      intro cells _
      exact _winLog_reads g cells
    exact hall _ hmem y x rfl
  · have h1 : ∀ y x : Int,
        (anyLog (_winLog g) (checkLists y x)).2.countP ScanEvent.isLine ≤ 4 * 1 :=
      fun y x => anyLog_lines (_winLog g) 1 (checkLists y x) (fun c _ => _winLog_lines g c)
    have h2 : ∀ y : Nat,
        (anyLog (fun x : Nat => anyLog (_winLog g) (checkLists (y : Int) (x : Int)))
          (List.range g.WIDTH)).2.countP ScanEvent.isLine ≤
            (List.range g.WIDTH).length * (4 * 1) :=
      fun y => anyLog_lines _ (4 * 1) (List.range g.WIDTH) (fun x _ => h1 y x)
    have h3 := anyLog_lines
      (fun y : Nat => anyLog (fun x : Nat => anyLog (_winLog g) (checkLists (y : Int) (x : Int)))
        (List.range g.WIDTH))
      ((List.range g.WIDTH).length * (4 * 1)) (List.range g.HEIGHT) (fun y _ => h2 y)
    simp only [List.length_range] at h3
    unfold checkForWinLog
    calc _ ≤ g.HEIGHT * (g.WIDTH * (4 * 1)) := h3
      _ = g.HEIGHT * g.WIDTH * 4 := by ring

end Connect4
